import Mathlib

/-!
Shallow embedding of the authoritative multiplayer core of the rustcraft
repository (crates `rustcraft_protocol` and `rustcraft_server`), together
with proofs settling the frozen claims about it.

Modelling conventions:
* Rust `f32` values are modelled as exact rationals (`ℚ`).  All the code under
  scrutiny only adds, subtracts, multiplies, compares, floors and truncates
  these values, which the rational model mirrors operation for operation.
  The few places where the source computes a square root (vector
  normalisation, `Vec3::distance`) are modelled by an explicit function
  parameter or by comparing squared quantities, as noted at each site.
* Rust `HashMap` fields are modelled as association lists (first entry with a
  matching key wins); a `HashSet` is a duplicate-free list.  Iteration order
  of a `HashMap` is unspecified in Rust, so the list order stands for one
  admissible iteration order.
* Rust integer types (`i32`, `u32`, `u64`, `usize`) are modelled as `Int`
  and `Nat`; none of the embedded quantities come near their overflow range.
* Fallible code is `Option`-valued: `none` models a Rust panic.
-/

namespace Rustcraft

/-- Floor of a rational, modelling `f32::floor` followed by `as i32`
(`Rat.floor` agrees with `Int.floor`, see `qfloor_eq_floor`). -/
def qfloor (q : ℚ) : Int := Rat.floor q

/-- Truncation toward zero, modelling a direct `as i32` cast on an `f32`. -/
def qtrunc (q : ℚ) : Int := q.num.tdiv q.den

theorem qfloor_eq_floor (q : ℚ) : qfloor q = ⌊q⌋ := by
  rw [qfloor, Rat.floor_def, Rat.floor_def']

/-- Inclusive integer range `a..=b` as a list, modelling Rust range loops. -/
def intRange (a b : Int) : List Int :=
  (List.range (b + 1 - a).toNat).map (fun (n : Nat) => a + (n : Int))

/-- Association-list lookup, modelling `HashMap::get`. -/
def alookup {K V : Type} [DecidableEq K] (k : K) : List (K × V) → Option V
  | [] => none
  | (k₂, v) :: rest => if k₂ = k then some v else alookup k rest

/-- Association-list insert/overwrite, modelling `HashMap::insert`. -/
def ainsert {K V : Type} [DecidableEq K] (k : K) (v : V) :
    List (K × V) → List (K × V)
  | [] => [(k, v)]
  | (k₂, v₂) :: rest =>
    if k₂ = k then (k, v) :: rest else (k₂, v₂) :: ainsert k v rest

/-- Association-list removal, modelling `HashMap::remove`. -/
def aerase {K V : Type} [DecidableEq K] (k : K) : List (K × V) → List (K × V)
  | [] => []
  | (k₂, v₂) :: rest => if k₂ = k then rest else (k₂, v₂) :: aerase k rest

/-! Source: crates/rustcraft_protocol/src/block.rs -/

/-- Closed enumeration of block materials (`block.rs`). -/
inductive BlockType where
  | Air
  | Grass
  | Dirt
  | Stone
  | Sand
  | Water
  | Wood
  | Leaves
deriving DecidableEq, Repr

/-- Everything but `Air` is solid (`block.rs`). -/
def BlockType.is_solid : BlockType → Bool
  | BlockType.Air => false
  | _ => true

/-- Air and Water are transparent (`block.rs`). -/
def BlockType.is_transparent : BlockType → Bool
  | BlockType.Air => true
  | BlockType.Water => true
  | _ => false

/-! Source: crates/rustcraft_protocol/src/inventory.rs -/

def MAX_STACK : Nat := 64

/-- A stack of one block type with a count (`inventory.rs`). -/
structure ItemStack where
  block : BlockType
  count : Nat
deriving DecidableEq, Repr

/-- Smart constructor clamping `count` to `MAX_STACK` (`ItemStack::new`). -/
def ItemStack.new (block : BlockType) (count : Nat) : ItemStack :=
  ⟨block, Nat.min count MAX_STACK⟩

/-- Fixed 36-slot inventory plus an active slot index (`inventory.rs`).
The Rust field is `[Option<ItemStack>; 36]`; the list invariantly has
length 36. -/
structure Inventory where
  slots : List (Option ItemStack)
  active_slot : Nat
deriving DecidableEq, Repr

/-- Inventory handed to every new player (`Inventory::default`). -/
def Inventory.default : Inventory where
  slots :=
    [some (ItemStack.new BlockType.Grass 64),
     some (ItemStack.new BlockType.Dirt 64),
     some (ItemStack.new BlockType.Stone 64),
     some (ItemStack.new BlockType.Sand 64),
     some (ItemStack.new BlockType.Wood 64),
     some (ItemStack.new BlockType.Leaves 64),
     some (ItemStack.new BlockType.Water 64)] ++ List.replicate 29 none
  active_slot := 0

/-- Block type held in the active slot, if any (`Inventory::active_block`). -/
def Inventory.active_block (inv : Inventory) : Option BlockType :=
  (inv.slots.getD inv.active_slot none).map (fun stack => stack.block)

/-- Decrement the active slot count by one, clearing the slot at zero
(`Inventory::consume_active`). -/
def Inventory.consume_active (inv : Inventory) : Inventory :=
  match inv.slots.getD inv.active_slot none with
  | some stack =>
    if stack.count - 1 = 0 then
      { inv with slots := inv.slots.set inv.active_slot none }
    else
      { inv with slots :=
          inv.slots.set inv.active_slot (some { stack with count := stack.count - 1 }) }
  | none => inv

/-- First slot that can accept `block`: first pass looks for a same-type
stack with room, second pass for an empty slot, both scanning slots
0,…,35 in order (`Inventory::find_slot_for`; the source's
`(0..9).chain(9..36)` order is exactly 0,…,35). -/
def Inventory.find_slot_for (inv : Inventory) (block : BlockType) : Option Nat :=
  let order := List.range 36
  match order.find? (fun i =>
      match inv.slots.getD i none with
      | some stack => decide (stack.block = block) && decide (stack.count < MAX_STACK)
      | none => false) with
  | some i => some i
  | none => order.find? (fun i => (inv.slots.getD i none).isNone)

/-- Fuel-indexed loop body of `Inventory::add_stack`.  Each iteration of the
source's `while count > 0` loop strictly decreases `count` (a slot found by
`find_slot_for` always has at least one unit of room), so `count` itself is
sufficient fuel. -/
def Inventory.addStackFuel (block : BlockType) :
    Nat → Inventory → Nat → Inventory × Nat
  | 0, inv, count => (inv, count)
  | _ + 1, inv, 0 => (inv, 0)
  | fuel + 1, inv, count + 1 =>
    match inv.find_slot_for block with
    | some slot_idx =>
      match inv.slots.getD slot_idx none with
      | some stack =>
        let space := MAX_STACK - stack.count
        let add := Nat.min (count + 1) space
        let inv₂ :=
          { inv with slots :=
              inv.slots.set slot_idx (some { stack with count := stack.count + add }) }
        Inventory.addStackFuel block fuel inv₂ (count + 1 - add)
      | none =>
        let add := Nat.min (count + 1) MAX_STACK
        let inv₂ :=
          { inv with slots := inv.slots.set slot_idx (some (ItemStack.new block add)) }
        Inventory.addStackFuel block fuel inv₂ (count + 1 - add)
    | none => (inv, count + 1)

/-- Add `count` units of `block`, merging into existing stacks before
filling empty slots; returns the updated inventory and the leftover count
(`Inventory::add_stack`). -/
def Inventory.add_stack (inv : Inventory) (block : BlockType) (count : Nat) :
    Inventory × Nat :=
  Inventory.addStackFuel block count inv count

/-! Source: crates/rustcraft_protocol/src/chunk.rs -/

def CHUNK_SIZE : Nat := 16
def CHUNK_HEIGHT : Nat := 64
def BLOCKS_PER_CHUNK : Nat := CHUNK_SIZE * CHUNK_SIZE * CHUNK_HEIGHT
def VIEW_DISTANCE : Int := 8

/-- Chunk column key `(cx, cz)` (the source's tuple struct `ChunkPos`). -/
abbrev ChunkPos : Type := Int × Int

/-- Flat block array of one chunk plus its dirty flag (`chunk.rs`).  The
Rust `blocks` vector invariantly has length `BLOCKS_PER_CHUNK`. -/
structure Chunk where
  blocks : List BlockType
  dirty : Bool
deriving DecidableEq

/-- Freshly allocated all-Air chunk (`Chunk::new`). -/
def Chunk.new : Chunk :=
  ⟨List.replicate BLOCKS_PER_CHUNK BlockType.Air, false⟩

/-- Flat index of a local coordinate (`Chunk::index`). -/
def Chunk.index (x y z : Nat) : Nat :=
  x + z * CHUNK_SIZE + y * CHUNK_SIZE * CHUNK_SIZE

/-- Local read with Air for out-of-range coordinates (`Chunk::get_block`).
In range the source indexes the vector directly; `getD` with default `Air`
agrees because the index is then below `BLOCKS_PER_CHUNK`, the invariant
length of `blocks`. -/
def Chunk.get_block (c : Chunk) (x y z : Nat) : BlockType :=
  if x ≥ CHUNK_SIZE ∨ y ≥ CHUNK_HEIGHT ∨ z ≥ CHUNK_SIZE then BlockType.Air
  else c.blocks.getD (Chunk.index x y z) BlockType.Air

/-- Local write, a no-op out of range, setting `dirty` in range
(`Chunk::set_block`). -/
def Chunk.set_block (c : Chunk) (x y z : Nat) (b : BlockType) : Chunk :=
  if x ≥ CHUNK_SIZE ∨ y ≥ CHUNK_HEIGHT ∨ z ≥ CHUNK_SIZE then c
  else { blocks := c.blocks.set (Chunk.index x y z) b, dirty := true }

/-- Map from chunk position to chunk (`ChunkMap`), keys unique. -/
structure ChunkMap where
  chunks : List (ChunkPos × Chunk)
deriving DecidableEq

/-- The empty chunk map (`ChunkMap::default`). -/
def ChunkMap.empty : ChunkMap := ⟨[]⟩

/-- World-coordinate read; Air for vertical out-of-range or unloaded chunks
(`ChunkMap::get_block`).  `Int./` is Euclidean division, matching Rust's
`div_euclid`/`rem_euclid`. -/
def ChunkMap.get_block (m : ChunkMap) (wx wy wz : Int) : BlockType :=
  if wy < 0 ∨ wy ≥ (CHUNK_HEIGHT : Int) then BlockType.Air
  else
    let cx := wx / (CHUNK_SIZE : Int)
    let cz := wz / (CHUNK_SIZE : Int)
    let lx := (wx % (CHUNK_SIZE : Int)).toNat
    let lz := (wz % (CHUNK_SIZE : Int)).toNat
    match alookup ((cx, cz) : ChunkPos) m.chunks with
    | some c => c.get_block lx wy.toNat lz
    | none => BlockType.Air

/-- Set the dirty flag of a chunk if loaded, modelling the
`if let Some(c) = chunks.get_mut(..) { c.dirty = true }` blocks of
`ChunkMap::set_block`. -/
def ChunkMap.markDirty (m : ChunkMap) (p : ChunkPos) : ChunkMap :=
  match alookup p m.chunks with
  | some c => ⟨ainsert p { c with dirty := true } m.chunks⟩
  | none => m

/-- World-coordinate write; a no-op for vertical out-of-range or unloaded
chunks, and marking neighbour chunks dirty on border writes
(`ChunkMap::set_block`). -/
def ChunkMap.set_block (m : ChunkMap) (wx wy wz : Int) (b : BlockType) :
    ChunkMap :=
  if wy < 0 ∨ wy ≥ (CHUNK_HEIGHT : Int) then m
  else
    let cx := wx / (CHUNK_SIZE : Int)
    let cz := wz / (CHUNK_SIZE : Int)
    let lx := (wx % (CHUNK_SIZE : Int)).toNat
    let lz := (wz % (CHUNK_SIZE : Int)).toNat
    let m₁ : ChunkMap :=
      match alookup ((cx, cz) : ChunkPos) m.chunks with
      | some c => ⟨ainsert ((cx, cz) : ChunkPos) (c.set_block lx wy.toNat lz b) m.chunks⟩
      | none => m
    let m₂ := if lx = 0 then m₁.markDirty ((cx - 1, cz) : ChunkPos) else m₁
    let m₃ := if lx = CHUNK_SIZE - 1 then m₂.markDirty ((cx + 1, cz) : ChunkPos) else m₂
    let m₄ := if lz = 0 then m₃.markDirty ((cx, cz - 1) : ChunkPos) else m₃
    if lz = CHUNK_SIZE - 1 then m₄.markDirty ((cx, cz + 1) : ChunkPos) else m₄

/-! Source: bevy_math vector types, as used by the protocol crate. -/

/-- Three-component vector over exact rationals, modelling `bevy_math::Vec3`. -/
structure Vec3 where
  x : ℚ
  y : ℚ
  z : ℚ
deriving DecidableEq, Repr

instance : Add Vec3 := ⟨fun a b => ⟨a.x + b.x, a.y + b.y, a.z + b.z⟩⟩
instance : Sub Vec3 := ⟨fun a b => ⟨a.x - b.x, a.y - b.y, a.z - b.z⟩⟩

/-- Scalar multiple, modelling `Vec3 * f32`. -/
def Vec3.scale (v : Vec3) (q : ℚ) : Vec3 := ⟨v.x * q, v.y * q, v.z * q⟩

def Vec3.zero : Vec3 := ⟨0, 0, 0⟩

/-- The unit vector `Vec3::Y`. -/
def Vec3.unitY : Vec3 := ⟨0, 1, 0⟩

/-- Squared distance between two points.  The source compares
`Vec3::distance` (a square root) against a non-negative radius; comparing
the squares is equivalent and stays rational. -/
def Vec3.distSq (a b : Vec3) : ℚ :=
  (a.x - b.x) * (a.x - b.x) + (a.y - b.y) * (a.y - b.y) + (a.z - b.z) * (a.z - b.z)

/-- Integer vector, modelling `bevy_math::IVec3`. -/
structure IVec3 where
  x : Int
  y : Int
  z : Int
deriving DecidableEq, Repr

instance : Add IVec3 := ⟨fun a b => ⟨a.x + b.x, a.y + b.y, a.z + b.z⟩⟩

def IVec3.zero : IVec3 := ⟨0, 0, 0⟩

/-- Componentwise floor of a `Vec3`, as in `origin.x.floor() as i32`. -/
def Vec3.floorCell (v : Vec3) : IVec3 := ⟨qfloor v.x, qfloor v.y, qfloor v.z⟩

/-- Read a block at an integer cell (`chunk_map.get_block(p.x, p.y, p.z)`). -/
def ChunkMap.get_block_iv (m : ChunkMap) (p : IVec3) : BlockType :=
  m.get_block p.x p.y p.z

end Rustcraft

namespace Rustcraft

/-! Source: crates/rustcraft_protocol/src/physics.rs -/

def PLAYER_HALF_WIDTH : ℚ := 0.3
def PLAYER_HEIGHT : ℚ := 1.8
def EYE_HEIGHT : ℚ := 1.7
def GRAVITY : ℚ := 32.0
def JUMP_VELOCITY : ℚ := 9.0
def TERMINAL_VELOCITY : ℚ := 78.4

/-- Does the player AABB with feet at `pos` overlap a solid block
(`collides_with_world`)? -/
def collides_with_world (pos : Vec3) (m : ChunkMap) : Bool :=
  let min_x := qfloor (pos.x - PLAYER_HALF_WIDTH)
  let max_x := qfloor (pos.x + PLAYER_HALF_WIDTH - 0.001)
  let min_y := qfloor pos.y
  let max_y := qfloor (pos.y + PLAYER_HEIGHT - 0.001)
  let min_z := qfloor (pos.z - PLAYER_HALF_WIDTH)
  let max_z := qfloor (pos.z + PLAYER_HALF_WIDTH - 0.001)
  (intRange min_x max_x).any fun bx =>
    (intRange min_y max_y).any fun my =>
      (intRange min_z max_z).any fun bz =>
        (m.get_block bx my bz).is_solid

/-- Is there a solid block in the one-cell layer just below the feet AABB
(`is_on_ground`)? -/
def is_on_ground (pos : Vec3) (m : ChunkMap) : Bool :=
  let min_x := qfloor (pos.x - PLAYER_HALF_WIDTH)
  let max_x := qfloor (pos.x + PLAYER_HALF_WIDTH - 0.001)
  let min_z := qfloor (pos.z - PLAYER_HALF_WIDTH)
  let max_z := qfloor (pos.z + PLAYER_HALF_WIDTH - 0.001)
  let cy := qfloor (pos.y - 0.001)
  (intRange min_x max_x).any fun bx =>
    (intRange min_z max_z).any fun bz =>
      (m.get_block bx cy bz).is_solid

/-- X-axis stage of `move_with_collision`: move, then snap back to the cell
boundary on contact. -/
def resolveX (pos : Vec3) (dx : ℚ) (m : ChunkMap) : Vec3 :=
  let p := { pos with x := pos.x + dx }
  if collides_with_world p m then
    if dx > 0 then
      { p with x := (qfloor (p.x + PLAYER_HALF_WIDTH) : ℚ) - PLAYER_HALF_WIDTH }
    else
      { p with x := (qfloor (p.x - PLAYER_HALF_WIDTH) : ℚ) + 1 + PLAYER_HALF_WIDTH }
  else p

/-- Y-axis stage of `move_with_collision`; also reports the
`(hit_floor, hit_ceiling)` pair this stage sets. -/
def resolveY (pos : Vec3) (dy : ℚ) (m : ChunkMap) : Vec3 × Bool × Bool :=
  let p := { pos with y := pos.y + dy }
  if collides_with_world p m then
    if dy > 0 then
      ({ p with y := (qfloor (p.y + PLAYER_HEIGHT) : ℚ) - PLAYER_HEIGHT }, false, true)
    else
      ({ p with y := (qfloor p.y : ℚ) + 1 }, true, false)
  else (p, false, false)

/-- Z-axis stage of `move_with_collision`. -/
def resolveZ (pos : Vec3) (dz : ℚ) (m : ChunkMap) : Vec3 :=
  let p := { pos with z := pos.z + dz }
  if collides_with_world p m then
    if dz > 0 then
      { p with z := (qfloor (p.z + PLAYER_HALF_WIDTH) : ℚ) - PLAYER_HALF_WIDTH }
    else
      { p with z := (qfloor (p.z - PLAYER_HALF_WIDTH) : ℚ) + 1 + PLAYER_HALF_WIDTH }
  else p

/-- Swept per-axis collision resolution (`move_with_collision`): resolve X,
then Y, then Z, returning `(new_pos, hit_floor, hit_ceiling)`.  The source's
two mutable flags start `false` and are only set in the Y stage, so the
staged composition computes the same triple. -/
def move_with_collision (current_pos : Vec3) (delta : Vec3) (m : ChunkMap) :
    Vec3 × Bool × Bool :=
  let p₁ := resolveX current_pos delta.x m
  let r := resolveY p₁ delta.y m
  let p₃ := resolveZ r.1 delta.z m
  (p₃, r.2.1, r.2.2)

/-! Source: crates/rustcraft_protocol/src/raycast.rs -/

def MAX_REACH : ℚ := 8.0

structure RaycastHit where
  block_pos : IVec3
  normal : IVec3
deriving DecidableEq, Repr

/-- Extended time value for the DDA traversal: `fin q` is an ordinary
parametric distance, `inf` stands for the `f32::MAX` sentinel and the `+∞`
produced by the source's division by a zero direction component (both
compare and add the same way in the traversal's regime). -/
inductive TVal where
  | fin (q : ℚ)
  | inf
deriving DecidableEq, Repr

/-- Addition saturating at `inf`, matching `f32` addition on the sentinel. -/
def TVal.add : TVal → TVal → TVal
  | TVal.fin a, TVal.fin b => TVal.fin (a + b)
  | _, _ => TVal.inf

/-- Strict comparison; `inf < inf` is `false` exactly as for `f32::MAX` and
`+∞`. -/
def TVal.blt : TVal → TVal → Bool
  | TVal.fin a, TVal.fin b => decide (a < b)
  | TVal.fin _, TVal.inf => true
  | TVal.inf, _ => false

/-- Step sign of one direction component (`if dir >= 0.0 { 1 } else { -1 }`). -/
def stepOf (d : ℚ) : Int := if d ≥ 0 then 1 else -1

/-- Per-axis parametric cell width (`t_delta`): `|1/d|`, or the `f32::MAX`
sentinel for a zero component. -/
def tDeltaOf (d : ℚ) : TVal :=
  if d ≠ 0 then TVal.fin |1 / d| else TVal.inf

/-- Initial per-axis boundary distance (`t_max`).  For `d = 0` the source's
first branch divides a positive numerator by zero, which is `+∞` in `f32`;
both that and the explicit `f32::MAX` branch are the `inf` sentinel here. -/
def tMaxInit (cell : Int) (o d : ℚ) : TVal :=
  if d ≥ 0 then
    if d = 0 then TVal.inf else TVal.fin ((((cell : ℚ) + 1) - o) / d)
  else if d ≠ 0 then TVal.fin (((cell : ℚ) - o) / d)
  else TVal.inf

/-- Mutable state of the DDA loop: current cell, per-axis `t_max`, and the
normal recorded by the last advance. -/
structure DdaState where
  pos : IVec3
  tx : TVal
  ty : TVal
  tz : TVal
  normal : IVec3
deriving DecidableEq, Repr

/-- One DDA advance: step along the axis with the smallest `t_max`,
recording the entry face as the normal (the body of the source loop after
the solidity check). -/
def ddaAdvance (step : IVec3) (tdx tdy tdz : TVal) (s : DdaState) : DdaState :=
  if s.tx.blt s.ty && s.tx.blt s.tz then
    { s with pos := { s.pos with x := s.pos.x + step.x },
             tx := s.tx.add tdx, normal := ⟨-step.x, 0, 0⟩ }
  else if s.ty.blt s.tz then
    { s with pos := { s.pos with y := s.pos.y + step.y },
             ty := s.ty.add tdy, normal := ⟨0, -step.y, 0⟩ }
  else
    { s with pos := { s.pos with z := s.pos.z + step.z },
             tz := s.tz.add tdz, normal := ⟨0, 0, -step.z⟩ }

/-- Squared distance from the integer corner of a cell to the ray origin
(the source's post-advance reach test). -/
def cellDistSq (p : IVec3) (origin : Vec3) : ℚ :=
  Vec3.distSq ⟨(p.x : ℚ), (p.y : ℚ), (p.z : ℚ)⟩ origin

/-- Fuel-indexed DDA loop (`for _ in 0..max_steps`). -/
def ddaLoop (m : ChunkMap) (origin : Vec3) (step : IVec3)
    (tdx tdy tdz : TVal) : Nat → DdaState → Option RaycastHit
  | 0, _ => none
  | fuel + 1, s =>
    if (m.get_block_iv s.pos).is_solid then
      some ⟨s.pos, s.normal⟩
    else
      let s₂ := ddaAdvance step tdx tdy tdz s
      if cellDistSq s₂.pos origin > MAX_REACH * MAX_REACH then none
      else ddaLoop m origin step tdx tdy tdz fuel s₂

/-- The sequence of `(cell, normal)` pairs the DDA traversal examines,
independent of the world: cut off only by the step budget and the
max-reach test.  `ddaLoop` returns the first entry of this path whose cell
is solid (`ddaLoop_eq_find`). -/
def ddaPath (origin : Vec3) (step : IVec3) (tdx tdy tdz : TVal) :
    Nat → DdaState → List (IVec3 × IVec3)
  | 0, _ => []
  | fuel + 1, s =>
    (s.pos, s.normal) ::
      (let s₂ := ddaAdvance step tdx tdy tdz s
       if cellDistSq s₂.pos origin > MAX_REACH * MAX_REACH then []
       else ddaPath origin step tdx tdy tdz fuel s₂)

/-- Step budget `(MAX_REACH * 3.0) as i32` of the source loop. -/
def max_steps : Nat := (qtrunc (MAX_REACH * 3)).toNat

/-- DDA voxel ray cast (`dda_raycast`).  The source first normalizes
`direction`; normalization only rescales every `t_delta`/`t_max` entry by
the same positive factor `1/|direction|` and flips no sign, so every branch
decision of the traversal — and hence the sequence of visited cells — is
unchanged when the traversal runs on the unnormalized direction, which is
what this embedding does (a square root is not rational). -/
def dda_raycast (origin direction : Vec3) (m : ChunkMap) : Option RaycastHit :=
  let dir := direction
  let pos₀ := origin.floorCell
  let step : IVec3 := ⟨stepOf dir.x, stepOf dir.y, stepOf dir.z⟩
  ddaLoop m origin step (tDeltaOf dir.x) (tDeltaOf dir.y) (tDeltaOf dir.z)
    max_steps
    ⟨pos₀, tMaxInit pos₀.x origin.x dir.x, tMaxInit pos₀.y origin.y dir.y,
     tMaxInit pos₀.z origin.z dir.z, IVec3.zero⟩

end Rustcraft

namespace Rustcraft

/-! Source: crates/rustcraft_protocol/src/game_mode.rs and player_state.rs -/

inductive GameMode where
  | Creative
  | Survival
deriving DecidableEq, Repr

/-- Authoritative per-player state (`player_state.rs`). -/
structure PlayerState where
  position : Vec3
  velocity_y : ℚ
  grounded : Bool
  yaw : ℚ
  pitch : ℚ
  game_mode : GameMode
deriving DecidableEq, Repr

/-- Spawn state of a new player (`PlayerState::default`); the default game
mode is Creative. -/
def PlayerState.default : PlayerState :=
  ⟨⟨64, 40 - 1.7, 64⟩, 0, false, 0, 0, GameMode.Creative⟩

/-! Source: crates/rustcraft_protocol/src/protocol.rs -/

inductive BlockAction where
  | Break
  | Place
deriving DecidableEq, Repr

/-- Client-to-server wire messages (`ClientMessage`). -/
inductive ClientMessage where
  | Connect (auth_code player_name : String)
  | Disconnect
  | InputCommand (sequence : Nat) (dt yaw pitch : ℚ)
      (forward backward left right jump sneak : Bool)
  | BlockInteraction (action : BlockAction) (origin direction : Vec3)
  | DropItem (slot : Nat) (count : Nat) (direction : Vec3)
  | ToggleGameMode
deriving DecidableEq, Repr

/-- Server-to-client wire messages (`ServerMessage`). -/
inductive ServerMessage where
  | ConnectAccepted (player_id : Nat)
  | ConnectRejected (reason : String)
  | PlayerJoined (player_id : Nat) (name : String) (position : Vec3)
  | PlayerLeft (player_id : Nat)
  | PlayerPositionUpdate (player_id : Nat) (position : Vec3) (yaw pitch : ℚ)
  | PlayerStateUpdate (last_processed_input : Nat) (position : Vec3)
      (velocity_y : ℚ) (grounded : Bool)
  | BlockChanged (position : IVec3) (new_type : BlockType)
  | ChunkData (pos : ChunkPos) (blocks : List BlockType)
  | ChunkUnload (pos : ChunkPos)
  | InventoryUpdate (slots : List (Option ItemStack)) (active_slot : Nat)
  | DroppedItemSpawned (id : Nat) (stack : ItemStack) (position velocity : Vec3)
  | DroppedItemRemoved (id : Nat)
  | GameModeChanged (mode : GameMode)
deriving DecidableEq, Repr

/-! Source: crates/rustcraft_server/src/world_session.rs -/

/-- Dropped-item entity state tracked by the server (`DroppedItemState`). -/
structure DroppedItemState where
  stack : ItemStack
  position : Vec3
  velocity : Vec3
  grounded : Bool
  age : ℚ
deriving DecidableEq, Repr

/-- Authoritative world session (`WorldSession`).  The fields the embedded
systems touch are modelled; `name`, `seed`, `world_path` and the Perlin
noise source only feed persistence and terrain generation, which are
behind the `load` function parameter below. -/
structure WorldSession where
  auth_code : String
  tick : Nat
  chunk_map : ChunkMap
  players : List (Nat × PlayerState)
  player_names : List (Nat × String)
  inventories : List (Nat × Inventory)
  dropped_items : List (Nat × DroppedItemState)
  next_entity_id : Nat
  loaded_chunks_per_player : List (Nat × List ChunkPos)
  ticks_since_save : Nat
deriving DecidableEq

/-- Register a new player with default state and inventory
(`WorldSession::add_player`). -/
def WorldSession.add_player (s : WorldSession) (id : Nat) (name : String) :
    WorldSession :=
  { s with players := ainsert id PlayerState.default s.players,
           player_names := ainsert id name s.player_names,
           inventories := ainsert id Inventory.default s.inventories,
           loaded_chunks_per_player := ainsert id [] s.loaded_chunks_per_player }

/-- Remove a player and their bookkeeping (`WorldSession::remove_player`). -/
def WorldSession.remove_player (s : WorldSession) (id : Nat) : WorldSession :=
  { s with players := aerase id s.players,
           player_names := aerase id s.player_names,
           inventories := aerase id s.inventories,
           loaded_chunks_per_player := aerase id s.loaded_chunks_per_player }

/-- Ensure a chunk is in memory (`WorldSession::ensure_chunk_loaded`).  The
source tries memory, then a disk file, then Perlin generation; disk and
noise are I/O outside the rational model, so the combined
"disk-or-generate" producer is the `load` parameter, a total function.
No claim under proof depends on the produced block contents. -/
def WorldSession.ensure_chunk_loaded (load : ChunkPos → Chunk)
    (s : WorldSession) (p : ChunkPos) : WorldSession :=
  if (alookup p s.chunk_map.chunks).isSome then s
  else { s with chunk_map := ⟨ainsert p (load p) s.chunk_map.chunks⟩ }

/-- All chunk positions within a square view radius of a world position
(`chunks_in_view_radius` in chunk.rs; `pos.x as i32` truncates). -/
def chunks_in_view_radius (pos : Vec3) (radius : Int) : List ChunkPos :=
  let cx := (qtrunc pos.x) / (CHUNK_SIZE : Int)
  let cz := (qtrunc pos.z) / (CHUNK_SIZE : Int)
  (intRange (cx - radius) (cx + radius)).flatMap fun x =>
    (intRange (cz - radius) (cz + radius)).map fun z => ((x, z) : ChunkPos)

/-! Source: crates/rustcraft_server/src/systems.rs — transport effects. -/

/-- One call into the `ServerTransport` trait, recorded symbolically. -/
inductive Eff where
  | sendTo (client_id : Nat) (msg : ServerMessage)
  | broadcast (msg : ServerMessage)
  | broadcastExcept (exclude_id : Nat) (msg : ServerMessage)
  | disconnect (client_id : Nat)
deriving DecidableEq, Repr

/-- Which message, if any, an effect delivers to client `cid`, for a
transport whose connected-client set is `connected` (the semantics of
`TcpServerTransport`: `send` writes to the one client, `broadcast` to all,
`broadcast_except` to all but the excluded id). -/
def Eff.deliveredTo (connected : List Nat) (cid : Nat) : Eff → Option ServerMessage
  | Eff.sendTo i m => if i = cid ∧ cid ∈ connected then some m else none
  | Eff.broadcast m => if cid ∈ connected then some m else none
  | Eff.broadcastExcept i m => if cid ∈ connected ∧ cid ≠ i then some m else none
  | Eff.disconnect _ => none

/-! Source: crates/rustcraft_server/src/systems.rs — message intake. -/

/-- Stream a list of chunks to one client: ensure each is loaded
server-side, then send its block array (the per-chunk body shared by the
`Connect` handler and `server_stream_chunks`). -/
def streamChunksTo (load : ChunkPos → Chunk) (cid : Nat) :
    List ChunkPos → WorldSession → WorldSession × List Eff
  | [], s => (s, [])
  | p :: rest, s =>
    let s₁ := WorldSession.ensure_chunk_loaded load s p
    match alookup p s₁.chunk_map.chunks with
    | some chunk =>
      let r := streamChunksTo load cid rest s₁
      (r.1, Eff.sendTo cid (ServerMessage.ChunkData p chunk.blocks) :: r.2)
    | none => streamChunksTo load cid rest s₁

/-- The `ClientMessage::Connect` arm of `server_process_messages`. -/
def handleConnect (load : ChunkPos → Chunk) (s : WorldSession) (client_id : Nat)
    (auth_code player_name : String) : WorldSession × List Eff :=
  if auth_code ≠ s.auth_code then
    (s, [Eff.sendTo client_id (ServerMessage.ConnectRejected "Invalid auth code"),
         Eff.disconnect client_id])
  else
    let existing_players :=
      s.players.map (fun e => (e.1, (alookup e.1 s.player_names).getD "", e.2.position))
    let s₁ := s.add_player client_id player_name
    let position := PlayerState.default.position
    let effs₁ := [Eff.sendTo client_id (ServerMessage.ConnectAccepted client_id)]
    let effs₂ :=
      match alookup client_id s₁.inventories with
      | some inv =>
        [Eff.sendTo client_id (ServerMessage.InventoryUpdate inv.slots inv.active_slot)]
      | none => []
    let effs₃ := existing_players.map (fun e =>
      Eff.sendTo client_id (ServerMessage.PlayerJoined e.1 e.2.1 e.2.2))
    let effs₄ := (s₁.players.map Prod.fst).filterMap (fun other_id =>
      if other_id ≠ client_id then
        some (Eff.sendTo other_id (ServerMessage.PlayerJoined client_id player_name position))
      else none)
    let effs₅ :=
      match alookup client_id s₁.players with
      | some player => [Eff.sendTo client_id (ServerMessage.GameModeChanged player.game_mode)]
      | none => []
    let initial_chunks := chunks_in_view_radius position VIEW_DISTANCE
    let r := streamChunksTo load client_id initial_chunks s₁
    let s₃ := { r.1 with loaded_chunks_per_player :=
                  ainsert client_id initial_chunks r.1.loaded_chunks_per_player }
    (s₃, effs₁ ++ effs₂ ++ effs₃ ++ effs₄ ++ effs₅ ++ r.2)

/-- The `ClientMessage::Disconnect` arm of `server_process_messages`.  The
save-if-last-player step is disk persistence, not modelled. -/
def handleDisconnect (s : WorldSession) (client_id : Nat) : WorldSession × List Eff :=
  let s₁ := s.remove_player client_id
  (s₁, s₁.players.map (fun e => Eff.sendTo e.1 (ServerMessage.PlayerLeft client_id)))

/-- The `ClientMessage::InputCommand` arm of `server_process_messages`.
`sinq`/`cosq` stand for `f32::sin`/`f32::cos` and `normv` for
`Vec3::normalize_or_zero` (and the guarded `normalize`), all irrational;
the properties proved about this handler hold for every choice of these
functions.  Note the handler receives the input's `sequence` but never
uses it (the source binds it `sequence: _`). -/
def handleInputCommand (sinq cosq : ℚ → ℚ) (normv : Vec3 → Vec3)
    (s : WorldSession) (client_id : Nat) (_sequence : Nat) (dt yaw pitch : ℚ)
    (forward backward left right jump sneak : Bool) : WorldSession × List Eff :=
  match alookup client_id s.players with
  | none => (s, [])
  | some player₀ =>
    let player₁ := { player₀ with yaw := yaw, pitch := pitch }
    let speed : ℚ := 12.0
    let fwd := normv ⟨-(sinq yaw) * cosq pitch, -(sinq pitch), -(cosq yaw) * cosq pitch⟩
    let rgt := normv ⟨cosq yaw, 0, -(sinq yaw)⟩
    let step :=
      match player₁.game_mode with
      | GameMode.Creative =>
        let v₁ := if forward then Vec3.zero + fwd else Vec3.zero
        let v₂ := if backward then v₁ - fwd else v₁
        let v₃ := if right then v₂ + rgt else v₂
        let v₄ := if left then v₃ - rgt else v₃
        let v₅ := if jump then v₄ + Vec3.unitY else v₄
        let v₆ := if sneak then v₅ - Vec3.unitY else v₅
        let velocity := if v₆ ≠ Vec3.zero then normv v₆ else v₆
        ((velocity.scale speed).scale dt, player₁)
      | GameMode.Survival =>
        let fwd_xz := normv ⟨fwd.x, 0, fwd.z⟩
        let rgt_xz := normv ⟨rgt.x, 0, rgt.z⟩
        let h₁ := if forward then Vec3.zero + fwd_xz else Vec3.zero
        let h₂ := if backward then h₁ - fwd_xz else h₁
        let h₃ := if right then h₂ + rgt_xz else h₂
        let h₄ := if left then h₃ - rgt_xz else h₃
        let horizontal := if h₄ ≠ Vec3.zero then normv h₄ else h₄
        let grounded₀ := is_on_ground player₁.position s.chunk_map
        let vy₀ := player₁.velocity_y
        let jumped := jump && grounded₀
        let vy₁ := if jumped then JUMP_VELOCITY else vy₀
        let grounded₁ := if jumped then false else grounded₀
        let vy₂ := max (vy₁ - GRAVITY * dt) (-TERMINAL_VELOCITY)
        (⟨horizontal.x * speed * dt, vy₂ * dt, horizontal.z * speed * dt⟩,
         { player₁ with velocity_y := vy₂, grounded := grounded₁ })
    let delta := step.1
    let player₂ := step.2
    let mv := move_with_collision player₂.position delta s.chunk_map
    let player₃ := { player₂ with position := mv.1 }
    let player₄ :=
      if player₃.game_mode = GameMode.Survival then
        let pf := if mv.2.1 then { player₃ with velocity_y := 0, grounded := true } else player₃
        if mv.2.2 then { pf with velocity_y := 0 } else pf
      else player₃
    let s₁ := { s with players := ainsert client_id player₄ s.players }
    (s₁, (s₁.players.map Prod.fst).filterMap (fun other_id =>
      if other_id ≠ client_id then
        some (Eff.sendTo other_id (ServerMessage.PlayerPositionUpdate client_id
          player₄.position player₄.yaw player₄.pitch))
      else none))

/-- The `ClientMessage::BlockInteraction` arm of `server_process_messages`. -/
def handleBlockInteraction (s : WorldSession) (client_id : Nat)
    (action : BlockAction) (origin direction : Vec3) : WorldSession × List Eff :=
  match dda_raycast origin direction s.chunk_map with
  | none => (s, [])
  | some hit =>
    let game_mode := ((alookup client_id s.players).map
      (fun p => p.game_mode)).getD GameMode.Creative
    match action with
    | BlockAction.Break =>
      let old_block :=
        s.chunk_map.get_block hit.block_pos.x hit.block_pos.y hit.block_pos.z
      let cm :=
        s.chunk_map.set_block hit.block_pos.x hit.block_pos.y hit.block_pos.z
          BlockType.Air
      let eff₁ :=
        Eff.broadcastExcept client_id
          (ServerMessage.BlockChanged hit.block_pos BlockType.Air)
      if game_mode = GameMode.Survival then
        let block_center : Vec3 :=
          ⟨(hit.block_pos.x : ℚ) + 0.5, (hit.block_pos.y : ℚ) + 0.5,
           (hit.block_pos.z : ℚ) + 0.5⟩
        let entity_id := s.next_entity_id
        ({ s with chunk_map := cm,
                  next_entity_id := s.next_entity_id + 1,
                  dropped_items := ainsert entity_id
                    ⟨ItemStack.new old_block 1, block_center, ⟨0, 4.0, 0⟩, false, 0⟩
                    s.dropped_items },
         [eff₁,
          Eff.broadcastExcept client_id
            (ServerMessage.DroppedItemSpawned entity_id (ItemStack.new old_block 1)
              block_center ⟨0, 4.0, 0⟩)])
      else ({ s with chunk_map := cm }, [eff₁])
    | BlockAction.Place =>
      match alookup client_id s.inventories with
      | none => (s, [])
      | some inv =>
        match inv.active_block with
        | none => (s, [])
        | some block =>
          let place_pos := hit.block_pos + hit.normal
          let cm := s.chunk_map.set_block place_pos.x place_pos.y place_pos.z block
          let inv₂ := if game_mode = GameMode.Survival then inv.consume_active else inv
          ({ s with chunk_map := cm, inventories := ainsert client_id inv₂ s.inventories },
           [Eff.broadcastExcept client_id (ServerMessage.BlockChanged place_pos block)])

/-- The `ClientMessage::DropItem` arm of `server_process_messages`.  The
source indexes `inv.slots[slot]` without a bounds check; an out-of-range
index panics, modelled as `none`. -/
def handleDropItem (normv : Vec3 → Vec3) (s : WorldSession) (client_id : Nat)
    (slot : Nat) (count : Nat) (direction : Vec3) :
    Option (WorldSession × List Eff) :=
  match alookup client_id s.players with
  | none => some (s, [])
  | some player =>
    match alookup client_id s.inventories with
    | none => some (s, [])
    | some inv =>
      match inv.slots.get? slot with
      | none => none
      | some none => some (s, [])
      | some (some stack) =>
        let drop_count := Nat.min count stack.count
        if drop_count = 0 then some (s, [])
        else
          let fwd_xz := normv ⟨direction.x, 0, direction.z⟩
          let drop_pos := player.position + Vec3.unitY.scale 1.7 + fwd_xz.scale 0.5
          let drop_velocity := direction.scale 3.0 + Vec3.unitY.scale 2.0
          let inv₂ :=
            if stack.count ≤ drop_count then
              { inv with slots := inv.slots.set slot none }
            else
              { inv with slots :=
                  inv.slots.set slot (some { stack with count := stack.count - drop_count }) }
          let entity_id := s.next_entity_id
          some
            ({ s with inventories := ainsert client_id inv₂ s.inventories,
                      next_entity_id := s.next_entity_id + 1,
                      dropped_items := ainsert entity_id
                        ⟨ItemStack.new stack.block drop_count, drop_pos, drop_velocity,
                         false, 0⟩ s.dropped_items },
             [Eff.broadcastExcept client_id
               (ServerMessage.DroppedItemSpawned entity_id
                 (ItemStack.new stack.block drop_count) drop_pos drop_velocity)])

/-- The `ClientMessage::ToggleGameMode` arm of `server_process_messages`. -/
def handleToggleGameMode (s : WorldSession) (client_id : Nat) :
    WorldSession × List Eff :=
  match alookup client_id s.players with
  | none => (s, [])
  | some player =>
    let new_mode :=
      match player.game_mode with
      | GameMode.Creative => GameMode.Survival
      | GameMode.Survival => GameMode.Creative
    let player₂ := { player with game_mode := new_mode, velocity_y := 0 }
    ({ s with players := ainsert client_id player₂ s.players },
     [Eff.sendTo client_id (ServerMessage.GameModeChanged new_mode)])

/-- Dispatch of one `(client_id, message)` pair inside
`server_process_messages`; `none` models a server panic. -/
def processMessage (load : ChunkPos → Chunk) (sinq cosq : ℚ → ℚ)
    (normv : Vec3 → Vec3) (s : WorldSession) (client_id : Nat) :
    ClientMessage → Option (WorldSession × List Eff)
  | ClientMessage.Connect a n => some (handleConnect load s client_id a n)
  | ClientMessage.Disconnect => some (handleDisconnect s client_id)
  | ClientMessage.InputCommand seq dt yaw pitch f b l r j sn =>
    some (handleInputCommand sinq cosq normv s client_id seq dt yaw pitch f b l r j sn)
  | ClientMessage.BlockInteraction a o d =>
    some (handleBlockInteraction s client_id a o d)
  | ClientMessage.DropItem slot count dir =>
    handleDropItem normv s client_id slot count dir
  | ClientMessage.ToggleGameMode => some (handleToggleGameMode s client_id)

/-- One tick of message intake (`server_process_messages`): bump the tick
counter, then process the drained messages in arrival order. -/
def server_process_messages (load : ChunkPos → Chunk) (sinq cosq : ℚ → ℚ)
    (normv : Vec3 → Vec3) (s : WorldSession) (msgs : List (Nat × ClientMessage)) :
    Option (WorldSession × List Eff) :=
  msgs.foldl
    (fun acc cm => acc.bind (fun r =>
      (processMessage load sinq cosq normv r.1 cm.1 cm.2).map
        (fun r₂ => (r₂.1, r.2 ++ r₂.2))))
    (some ({ s with tick := s.tick + 1 }, []))

end Rustcraft

namespace Rustcraft

/-! Source: crates/rustcraft_server/src/systems.rs — dropped-item physics. -/

/-- Advance one dropped item by `dt` seconds against the world
(the loop body of `server_dropped_item_physics`). -/
def dropped_item_physics_step (m : ChunkMap) (dt : ℚ) (item : DroppedItemState) :
    DroppedItemState :=
  let gravity : ℚ := 32.0
  let terminal_velocity : ℚ := 50.0
  let dropped_item_scale : ℚ := 0.3
  let item := { item with age := item.age + dt }
  if item.grounded then
    let vx := item.velocity.x * max (1 - 5.0 * dt) 0
    let vz := item.velocity.z * max (1 - 5.0 * dt) 0
    if |vx| < 0.01 ∧ |vz| < 0.01 then
      { item with velocity := Vec3.zero }
    else
      let new_x := item.position.x + vx * dt
      let cy := qfloor (item.position.y - 0.01)
      let bz := qfloor item.position.z
      let item₁ :=
        if ¬ (m.get_block (qfloor new_x) (cy + 1) bz).is_solid then
          { item with position := { item.position with x := new_x },
                      velocity := { item.velocity with x := vx, z := vz } }
        else
          { item with velocity := { item.velocity with x := 0, z := vz } }
      let new_z := item₁.position.z + vz * dt
      let bx := qfloor item₁.position.x
      if ¬ (m.get_block bx (cy + 1) (qfloor new_z)).is_solid then
        { item₁ with position := { item₁.position with z := new_z } }
      else
        { item₁ with velocity := { item₁.velocity with z := 0 } }
  else
    let vy := max (item.velocity.y - gravity * dt) (-terminal_velocity)
    let item := { item with velocity := { item.velocity with y := vy } }
    let new_x := item.position.x + item.velocity.x * dt
    let cy := qfloor item.position.y
    let bz := qfloor item.position.z
    let item₁ :=
      if (m.get_block (qfloor new_x) cy bz).is_solid then
        { item with velocity := { item.velocity with x := 0 } }
      else
        { item with position := { item.position with x := new_x } }
    let new_z := item₁.position.z + item₁.velocity.z * dt
    let bx := qfloor item₁.position.x
    let item₂ :=
      if (m.get_block bx cy (qfloor new_z)).is_solid then
        { item₁ with velocity := { item₁.velocity with z := 0 } }
      else
        { item₁ with position := { item₁.position with z := new_z } }
    let new_y := item₂.position.y + item₂.velocity.y * dt
    let check_y := qfloor (new_y - 0.01)
    let bx₂ := qfloor item₂.position.x
    let bz₂ := qfloor item₂.position.z
    if item₂.velocity.y ≤ 0 ∧ (m.get_block bx₂ check_y bz₂).is_solid then
      { item₂ with
          position := { item₂.position with
            y := (check_y + 1 : Int) + dropped_item_scale / 2 + 0.02 },
          velocity := { item₂.velocity with y := 0 },
          grounded := true }
    else
      { item₂ with position := { item₂.position with y := new_y } }

/-- Per-tick dropped item physics (`server_dropped_item_physics`). -/
def server_dropped_item_physics (dt : ℚ) (s : WorldSession) : WorldSession :=
  { s with dropped_items :=
      s.dropped_items.map (fun ei => (ei.1, dropped_item_physics_step s.chunk_map dt ei.2)) }

/-! Source: crates/rustcraft_server/src/systems.rs — pickup resolution. -/

def pickup_radius : ℚ := 2.0
def pickup_delay : ℚ := 1.5

/-- Scan phase of `server_pickup_items`: for every dropped item past the
pickup delay, the first player (in map order) within the pickup radius
whose inventory has a slot for the item's block type; the source `break`s
after the first match.  The source compares `Vec3::distance` (a square
root) to the radius; both sides are non-negative, so comparing squares is
the same test. -/
def pickupCandidates (s : WorldSession) : List (Nat × Nat) :=
  s.dropped_items.filterMap (fun ei =>
    if ei.2.age < pickup_delay then none
    else
      (s.players.find? (fun cp =>
        decide (Vec3.distSq cp.2.position ei.2.position ≤ pickup_radius * pickup_radius)
        && match alookup cp.1 s.inventories with
           | some inv => (inv.find_slot_for ei.2.stack.block).isSome
           | none => false)).map (fun cp => (ei.1, cp.1)))

/-- Collection phase of `server_pickup_items`: remove each collected
entity, merge its stack into the collector's inventory, broadcast the
despawn and send the collector an inventory update. -/
def processCollected : List (Nat × Nat) → WorldSession → WorldSession × List Eff
  | [], s => (s, [])
  | (entity_id, client_id) :: rest, s =>
    match alookup entity_id s.dropped_items with
    | none => processCollected rest s
    | some item =>
      let s₁ := { s with dropped_items := aerase entity_id s.dropped_items }
      match alookup client_id s₁.inventories with
      | none => processCollected rest s₁
      | some inv =>
        let inv₂ := (inv.add_stack item.stack.block item.stack.count).1
        let s₂ := { s₁ with inventories := ainsert client_id inv₂ s₁.inventories }
        let r := processCollected rest s₂
        (r.1,
         Eff.broadcast (ServerMessage.DroppedItemRemoved entity_id) ::
           Eff.sendTo client_id (ServerMessage.InventoryUpdate inv₂.slots inv₂.active_slot) ::
           r.2)

/-- Per-tick pickup resolution (`server_pickup_items`). -/
def server_pickup_items (s : WorldSession) : WorldSession × List Eff :=
  processCollected (pickupCandidates s) s

/-! Source: crates/rustcraft_server/src/systems.rs — chunk streaming. -/

def MAX_CHUNKS_PER_PLAYER_PER_TICK : Nat := 4

/-- Set-insert for the duplicate-free list modelling a `HashSet`. -/
def setInsert (p : ChunkPos) (l : List ChunkPos) : List ChunkPos :=
  if p ∈ l then l else l ++ [p]

/-- The per-player body of `server_stream_chunks`: diff the square of
visible chunks against the player's already-streamed set, send up to
`MAX_CHUNKS_PER_PLAYER_PER_TICK` new chunks, emit `ChunkUnload` for chunks
no longer visible, and update the streamed set. -/
def streamForPlayer (load : ChunkPos → Chunk) (player_id : Nat) (position : Vec3)
    (s : WorldSession) : WorldSession × List Eff :=
  let visible := chunks_in_view_radius position VIEW_DISTANCE
  let currently_loaded := (alookup player_id s.loaded_chunks_per_player).getD []
  let s₀ :=
    if (alookup player_id s.loaded_chunks_per_player).isSome then s
    else { s with loaded_chunks_per_player :=
            ainsert player_id [] s.loaded_chunks_per_player }
  let to_send := visible.filter (fun c => decide (c ∉ currently_loaded))
  let to_unload := currently_loaded.filter (fun c => decide (c ∉ visible))
  let sent := to_send.take MAX_CHUNKS_PER_PLAYER_PER_TICK
  let r := streamChunksTo load player_id sent s₀
  let effs₂ := to_unload.map (fun c => Eff.sendTo player_id (ServerMessage.ChunkUnload c))
  let loaded₁ := (alookup player_id r.1.loaded_chunks_per_player).getD []
  let loaded₂ := sent.foldl (fun acc p => setInsert p acc) loaded₁
  let loaded₃ := loaded₂.filter (fun c => decide (c ∉ to_unload))
  let s₂ := { r.1 with loaded_chunks_per_player :=
                ainsert player_id loaded₃ r.1.loaded_chunks_per_player }
  (s₂, r.2 ++ effs₂)

/-- Loop of `server_stream_chunks` over the snapshot of player positions. -/
def streamPlayers (load : ChunkPos → Chunk) :
    List (Nat × Vec3) → WorldSession → WorldSession × List Eff
  | [], s => (s, [])
  | (pid, pos) :: rest, s =>
    let r := streamForPlayer load pid pos s
    let r₂ := streamPlayers load rest r.1
    (r₂.1, r.2 ++ r₂.2)

/-- Per-tick chunk streaming (`server_stream_chunks`), including the final
eviction of chunks no player has streamed (saving dirty chunks to disk is
I/O and not modelled; eviction itself is). -/
def server_stream_chunks (load : ChunkPos → Chunk) (s : WorldSession) :
    WorldSession × List Eff :=
  let player_positions := s.players.map (fun e => (e.1, e.2.position))
  let r := streamPlayers load player_positions s
  let all_loaded := r.1.loaded_chunks_per_player.flatMap (fun e => e.2)
  ({ r.1 with chunk_map := ⟨r.1.chunk_map.chunks.filter (fun kc => decide (kc.1 ∈ all_loaded))⟩ },
   r.2)

/-! Event-trace semantics tying the handlers together, for the chunk
streaming claim.  An event is one server-side occurrence that can touch
the per-player streamed-chunk bookkeeping or emit `ChunkData`/`ChunkUnload`:
a `Connect` intake, a `Disconnect` intake, one run of the per-tick
`server_stream_chunks` system, or a player position change (`moveTo`, the
net effect on streaming of the `InputCommand` handler, which itself emits
neither `ChunkData` nor `ChunkUnload` and leaves every streamed set
unchanged). -/

inductive SEvent where
  | connect (cid : Nat) (auth name : String)
  | disconnect (cid : Nat)
  | stream
  | moveTo (cid : Nat) (pos : Vec3)

/-- One event step of the server. -/
def stepEvent (load : ChunkPos → Chunk) (s : WorldSession) :
    SEvent → WorldSession × List Eff
  | SEvent.connect cid a n => handleConnect load s cid a n
  | SEvent.disconnect cid => handleDisconnect s cid
  | SEvent.stream => server_stream_chunks load s
  | SEvent.moveTo cid pos =>
    match alookup cid s.players with
    | some p => ({ s with players := ainsert cid { p with position := pos } s.players }, [])
    | none => (s, [])

/-- States along a trace: `traceStates load s evs` lists the state before
each event and the final state. -/
def traceStates (load : ChunkPos → Chunk) (s : WorldSession) :
    List SEvent → List WorldSession
  | [] => [s]
  | e :: rest => s :: traceStates load (stepEvent load s e).1 rest

/-- Effect lists emitted by each event of a trace. -/
def traceEffs (load : ChunkPos → Chunk) (s : WorldSession) :
    List SEvent → List (List Eff)
  | [] => []
  | e :: rest =>
    (stepEvent load s e).2 :: traceEffs load (stepEvent load s e).1 rest

end Rustcraft

namespace Rustcraft

/-- Fresh session as produced by `WorldSession::new`: empty world, no
players, `next_entity_id = 1`, tick 0.  The session's random six-character
auth code, world name, seed and disk path are parameters or omitted
(they feed only persistence and generation). -/
def WorldSession.new (auth_code : String) : WorldSession :=
  ⟨auth_code, 0, ChunkMap.empty, [], [], [], [], 1, [], 0⟩

/-- Does an effect carry a message satisfying `p` (to anyone)? -/
def Eff.carries (p : ServerMessage → Bool) : Eff → Bool
  | Eff.sendTo _ m => p m
  | Eff.broadcast m => p m
  | Eff.broadcastExcept _ m => p m
  | Eff.disconnect _ => false

/-- Recognizer for `PlayerJoined` messages. -/
def isPlayerJoined : ServerMessage → Bool
  | ServerMessage.PlayerJoined _ _ _ => true
  | _ => false

/-- Recognizer for `PlayerStateUpdate` messages. -/
def isPlayerStateUpdate : ServerMessage → Bool
  | ServerMessage.PlayerStateUpdate _ _ _ _ => true
  | _ => false

/-! Association-list lemmas used throughout. -/

theorem alookup_ainsert_self {K V : Type} [DecidableEq K] (k : K) (v : V)
    (l : List (K × V)) : alookup k (ainsert k v l) = some v := by
  induction l with
  | nil => simp [ainsert, alookup]
  | cons hd tl ih =>
    by_cases h : hd.1 = k
    · simp [ainsert, alookup, h]
    · simpa [ainsert, alookup, h] using ih

theorem alookup_ainsert_ne {K V : Type} [DecidableEq K] {k k₂ : K} (v : V)
    (l : List (K × V)) (h : k₂ ≠ k) :
    alookup k (ainsert k₂ v l) = alookup k l := by
  induction l with
  | nil => simp [ainsert, alookup, h]
  | cons hd tl ih =>
    by_cases h₂ : hd.1 = k₂
    · simp [ainsert, alookup, h₂, h, Ne.symm h]
    · by_cases h₃ : hd.1 = k <;>
        simp [ainsert, alookup, h₂, h₃, Ne.symm h, ih]

theorem alookup_aerase_ne {K V : Type} [DecidableEq K] {k k₂ : K}
    (l : List (K × V)) (h : k₂ ≠ k) :
    alookup k (aerase k₂ l) = alookup k l := by
  induction l with
  | nil => simp [aerase, alookup]
  | cons hd tl ih =>
    by_cases h₂ : hd.1 = k₂
    · have hne : ¬ hd.1 = k := by rw [h₂]; exact h
      simp [aerase, alookup, h₂, hne, h]
    · by_cases h₃ : hd.1 = k <;>
        simp [aerase, alookup, h₂, h₃, Ne.symm h, ih]

/-- C7 helper: the rejected-connect effect list. -/
def rejectionEffs (cid : Nat) : List Eff :=
  [Eff.sendTo cid (ServerMessage.ConnectRejected "Invalid auth code"),
   Eff.disconnect cid]

/-- C7: a `Connect` whose auth code differs from the session's is answered
by `ConnectRejected "Invalid auth code"` followed by a forced disconnect of
that client, no `PlayerJoined` is emitted to anyone, and the session state
is returned unchanged. -/
theorem connect_bad_auth_rejected (load : ChunkPos → Chunk)
    (sinq cosq : ℚ → ℚ) (normv : Vec3 → Vec3) (s : WorldSession) (cid : Nat)
    (code name : String) (h : code ≠ s.auth_code) :
    processMessage load sinq cosq normv s cid (ClientMessage.Connect code name) =
      some (s, rejectionEffs cid) ∧
    (rejectionEffs cid).all (fun e => ! e.carries isPlayerJoined) = true := by
  constructor
  · simp [processMessage, handleConnect, h, rejectionEffs]
  · simp [rejectionEffs, Eff.carries, isPlayerJoined]

/-- C7 witness: the spec's own scenario — `Connect{"WRONG","Bob"}` against
session auth code `"ABC123"`. -/
theorem connect_bad_auth_rejected_witness :
    processMessage (fun _ => Chunk.new) (fun q => q) (fun q => q) (fun v => v)
        (WorldSession.new "ABC123") 7 (ClientMessage.Connect "WRONG" "Bob") =
      some (WorldSession.new "ABC123", rejectionEffs 7) ∧
    (rejectionEffs 7).all (fun e => ! e.carries isPlayerJoined) = true :=
  connect_bad_auth_rejected (fun _ => Chunk.new) (fun q => q) (fun q => q)
    (fun v => v) (WorldSession.new "ABC123") 7 "WRONG" "Bob" (by decide)

set_option maxRecDepth 10000 in
/-- C2: the `DropItem` intake is indeed a silent no-op for an in-range
empty slot, but an out-of-range slot index (`slot ≥ 36`) makes the source
index `inv.slots[slot]` out of bounds and panic (modelled as `none`),
contradicting the claimed no-panic no-op: here the session is a fresh
world joined by player 0, whose default inventory has 36 slots with
slot 10 empty, and the message `DropItem{slot: 36, count: 1}` panics. -/
theorem drop_item_out_of_range_panics :
    processMessage (fun _ => Chunk.new) (fun q => q) (fun q => q) (fun v => v)
        ((WorldSession.new "ABC123").add_player 0 "Bob") 0
        (ClientMessage.DropItem 36 1 ⟨1, 0, 0⟩) = none ∧
    processMessage (fun _ => Chunk.new) (fun q => q) (fun q => q) (fun v => v)
        ((WorldSession.new "ABC123").add_player 0 "Bob") 0
        (ClientMessage.DropItem 10 1 ⟨1, 0, 0⟩) =
      some ((WorldSession.new "ABC123").add_player 0 "Bob", []) := by
  constructor
  · with_unfolding_all decide
  · with_unfolding_all decide

end Rustcraft


namespace Rustcraft

/-! Claim C6 — `ChunkMap` get/set. -/

theorem markDirty_alookup_ne (m : ChunkMap) (p q : ChunkPos) (h : p ≠ q) :
    alookup q (m.markDirty p).chunks = alookup q m.chunks := by
  unfold ChunkMap.markDirty
  cases halt : alookup p m.chunks with
  | none => rfl
  | some c => simpa using alookup_ainsert_ne _ m.chunks h

theorem markDirty_ite_alookup_ne (m : ChunkMap) (p q : ChunkPos) (c : Prop)
    [Decidable c] (h : p ≠ q) :
    alookup q (if c then m.markDirty p else m).chunks = alookup q m.chunks := by
  by_cases hc : c
  · simp only [hc, if_true]
    exact markDirty_alookup_ne m p q h
  · simp [hc]

/-- C6 counterexample: on an empty chunk map (the written chunk is not
loaded), `set_block` is a no-op, so `get_block` after `set_block` of
`Grass` at `(0,0,0)` returns `Air`, not the written value — refuting the
unconditional get-after-set clause of the claim. -/
theorem chunkmap_set_get_unloaded_cex :
    (ChunkMap.empty.set_block 0 0 0 BlockType.Grass).get_block 0 0 0 =
      BlockType.Air ∧ BlockType.Air ≠ BlockType.Grass := by
  constructor
  · with_unfolding_all decide
  · decide

/-- C6 (amended): if the chunk containing `(wx,wy,wz)` is loaded (with its
invariant block-array length) and `0 ≤ wy < CHUNK_HEIGHT`, then
`get_block` after `set_block v` at the same coordinates returns `v`; and
whenever the containing chunk is not loaded or `wy` is out of range,
`get_block` returns `Air`. -/
theorem chunkmap_set_get_spec (m : ChunkMap) (wx wy wz : Int) (v : BlockType) :
    (∀ ch, alookup ((wx / (CHUNK_SIZE : Int), wz / (CHUNK_SIZE : Int)) : ChunkPos)
        m.chunks = some ch →
      ch.blocks.length = BLOCKS_PER_CHUNK → 0 ≤ wy → wy < (CHUNK_HEIGHT : Int) →
      (m.set_block wx wy wz v).get_block wx wy wz = v) ∧
    (alookup ((wx / (CHUNK_SIZE : Int), wz / (CHUNK_SIZE : Int)) : ChunkPos)
        m.chunks = none ∨ wy < 0 ∨ wy ≥ (CHUNK_HEIGHT : Int) →
      m.get_block wx wy wz = BlockType.Air) := by
  have hcs : ((CHUNK_SIZE : Nat) : Int) = 16 := by norm_num [CHUNK_SIZE]
  constructor
  · intro ch hch hlen hy0 hy64
    have hyr : ¬ (wy < 0 ∨ wy ≥ (CHUNK_HEIGHT : Int)) := by
      unfold CHUNK_HEIGHT at *
      push_neg
      constructor <;> omega
    have hlx : (wx % (CHUNK_SIZE : Int)).toNat < CHUNK_SIZE := by
      have h₁ := Int.emod_lt_of_pos wx (by omega : (0:Int) < (CHUNK_SIZE : Int))
      have h₂ := Int.emod_nonneg wx (by omega : ((CHUNK_SIZE : Nat) : Int) ≠ 0)
      omega
    have hlz : (wz % (CHUNK_SIZE : Int)).toNat < CHUNK_SIZE := by
      have h₁ := Int.emod_lt_of_pos wz (by omega : (0:Int) < (CHUNK_SIZE : Int))
      have h₂ := Int.emod_nonneg wz (by omega : ((CHUNK_SIZE : Nat) : Int) ≠ 0)
      omega
    have hly : wy.toNat < CHUNK_HEIGHT := by
      unfold CHUNK_HEIGHT at *
      omega
    have hidx : Chunk.index (wx % (CHUNK_SIZE : Int)).toNat wy.toNat
        (wz % (CHUNK_SIZE : Int)).toNat < BLOCKS_PER_CHUNK := by
      unfold Chunk.index BLOCKS_PER_CHUNK
      unfold CHUNK_SIZE CHUNK_HEIGHT at *
      omega
    unfold ChunkMap.set_block ChunkMap.get_block
    simp only [hyr, if_false]
    have hne₁ : ((wx / (CHUNK_SIZE : Int) - 1, wz / (CHUNK_SIZE : Int)) : ChunkPos) ≠
        (wx / (CHUNK_SIZE : Int), wz / (CHUNK_SIZE : Int)) := by
      intro hh
      rw [Prod.mk.injEq] at hh
      omega
    have hne₂ : ((wx / (CHUNK_SIZE : Int) + 1, wz / (CHUNK_SIZE : Int)) : ChunkPos) ≠
        (wx / (CHUNK_SIZE : Int), wz / (CHUNK_SIZE : Int)) := by
      intro hh
      rw [Prod.mk.injEq] at hh
      omega
    have hne₃ : ((wx / (CHUNK_SIZE : Int), wz / (CHUNK_SIZE : Int) - 1) : ChunkPos) ≠
        (wx / (CHUNK_SIZE : Int), wz / (CHUNK_SIZE : Int)) := by
      intro hh
      rw [Prod.mk.injEq] at hh
      omega
    have hne₄ : ((wx / (CHUNK_SIZE : Int), wz / (CHUNK_SIZE : Int) + 1) : ChunkPos) ≠
        (wx / (CHUNK_SIZE : Int), wz / (CHUNK_SIZE : Int)) := by
      intro hh
      rw [Prod.mk.injEq] at hh
      omega
    rw [markDirty_ite_alookup_ne _ _ _ _ hne₄,
        markDirty_ite_alookup_ne _ _ _ _ hne₃,
        markDirty_ite_alookup_ne _ _ _ _ hne₂,
        markDirty_ite_alookup_ne _ _ _ _ hne₁]
    rw [hch]
    simp only
    rw [alookup_ainsert_self]
    unfold Chunk.set_block Chunk.get_block
    have hguard : ¬ ((wx % (CHUNK_SIZE : Int)).toNat ≥ CHUNK_SIZE ∨
        wy.toNat ≥ CHUNK_HEIGHT ∨ (wz % (CHUNK_SIZE : Int)).toNat ≥ CHUNK_SIZE) := by
      push_neg
      refine ⟨by omega, by omega, by omega⟩
    simp only [hguard, if_false]
    rw [List.getD_eq_getElem?_getD, List.getElem?_set_self (by omega)]
    rfl
  · intro h
    unfold ChunkMap.get_block
    rcases h with h | h | h
    · by_cases hy : wy < 0 ∨ wy ≥ (CHUNK_HEIGHT : Int)
      · simp [hy]
      · simp only [hy, if_false]
        rw [h]
    · simp [show wy < 0 ∨ wy ≥ (CHUNK_HEIGHT : Int) from Or.inl h]
    · simp [show wy < 0 ∨ wy ≥ (CHUNK_HEIGHT : Int) from Or.inr h]

end Rustcraft

namespace Rustcraft

/-- Singleton world containing the fresh all-Air chunk at `(0,0)`. -/
def originChunkMap : ChunkMap := ⟨[(((0 : Int), (0 : Int)), Chunk.new)]⟩

set_option maxRecDepth 10000 in
/-- C6 witness: on a world whose chunk `(0,0)` is loaded, writing `Grass`
at `(3,5,7)` and reading it back yields `Grass`; reading at the unloaded
`(100,5,7)` yields `Air`. -/
theorem chunkmap_set_get_spec_witness :
    (originChunkMap.set_block 3 5 7 BlockType.Grass).get_block 3 5 7 =
      BlockType.Grass ∧
    originChunkMap.get_block 100 5 7 = BlockType.Air :=
  ⟨(chunkmap_set_get_spec originChunkMap 3 5 7 BlockType.Grass).1 Chunk.new
      (by with_unfolding_all rfl)
      (by simp [Chunk.new])
      (by decide) (by decide),
   (chunkmap_set_get_spec originChunkMap 100 5 7 BlockType.Grass).2
      (Or.inl (by with_unfolding_all rfl))⟩

/-! Claim C10 — ray origin inside a solid block. -/

theorem max_steps_eq : max_steps = 23 + 1 := by
  with_unfolding_all decide

/-- C10: whenever the cell containing the ray origin is solid, the DDA
loop returns on its very first iteration — before any traversal step — so
the hit is the floor of the origin with the initial zero normal, for every
direction and world. -/
theorem dda_raycast_origin_solid (origin direction : Vec3) (m : ChunkMap)
    (h : (m.get_block_iv origin.floorCell).is_solid = true) :
    dda_raycast origin direction m = some ⟨origin.floorCell, IVec3.zero⟩ := by
  unfold dda_raycast
  rw [max_steps_eq]
  simp only [ddaLoop, h, if_true]

set_option maxRecDepth 10000 in
/-- C10 witness: a ray starting inside the Grass block at `(5,10,5)`
returns that cell with the zero normal. -/
theorem dda_raycast_origin_solid_witness :
    dda_raycast ⟨5.5, 10.5, 5.5⟩ ⟨0, 1, 0⟩
        ⟨[(((0 : Int), (0 : Int)), Chunk.new.set_block 5 10 5 BlockType.Grass)]⟩ =
      some ⟨⟨5, 10, 5⟩, IVec3.zero⟩ := by
  have h := dda_raycast_origin_solid ⟨5.5, 10.5, 5.5⟩ ⟨0, 1, 0⟩
    ⟨[(((0 : Int), (0 : Int)), Chunk.new.set_block 5 10 5 BlockType.Grass)]⟩
    (by with_unfolding_all decide)
  rw [h]
  have : (⟨5.5, 10.5, 5.5⟩ : Vec3).floorCell = ⟨5, 10, 5⟩ := by
    with_unfolding_all decide
  rw [this]

end Rustcraft

namespace Rustcraft

/-! Claim C1 — no authoritative `PlayerStateUpdate` echo. -/

theorem input_command_no_state_update (sinq cosq : ℚ → ℚ) (normv : Vec3 → Vec3)
    (s : WorldSession) (cid seq : Nat) (dt yaw pitch : ℚ)
    (f b l r j sn : Bool) :
    ((handleInputCommand sinq cosq normv s cid seq dt yaw pitch f b l r j sn).2.all
        (fun e => ! e.carries isPlayerStateUpdate) = true) ∧
    (∀ e ∈ (handleInputCommand sinq cosq normv s cid seq dt yaw pitch f b l r j sn).2,
      ∃ oid pos yw pt, oid ≠ cid ∧
        e = Eff.sendTo oid (ServerMessage.PlayerPositionUpdate cid pos yw pt)) := by
  cases halt : alookup cid s.players with
  | none =>
    unfold handleInputCommand
    rw [halt]
    exact ⟨rfl, by intro e he; simp at he⟩
  | some player₀ =>
    unfold handleInputCommand
    rw [halt]
    simp only
    constructor
    · rw [List.all_eq_true]
      intro e he
      rcases List.mem_filterMap.mp he with ⟨oid, hmem, hfe⟩
      by_cases heq : oid = cid
      · subst heq
        simp at hfe
      · rw [if_pos heq] at hfe
        cases hfe
        rfl
    · intro e he
      rcases List.mem_filterMap.mp he with ⟨oid, hmem, hfe⟩
      by_cases heq : oid = cid
      · subst heq
        simp at hfe
      · rw [if_pos heq] at hfe
        cases hfe
        exact ⟨oid, _, _, _, heq, rfl⟩

/-! Claim C3 — breaking a block in Survival mode. -/

/-- C3 (amended): when the ray hits and the actor is a Survival player,
`Break` clears the hit cell to Air, spawns one unit of the old block as a
dropped item at the block center with velocity `(0,4,0)` under the next
entity id, and broadcasts `BlockChanged` and `DroppedItemSpawned` to every
connected client EXCEPT the actor (`broadcast_except`); in particular no
effect of this handler delivers anything to the actor. -/
theorem break_survival_broadcasts_except_actor (s : WorldSession) (cid : Nat)
    (origin direction : Vec3) (hit : RaycastHit) (p : PlayerState)
    (hdda : dda_raycast origin direction s.chunk_map = some hit)
    (hp : alookup cid s.players = some p)
    (hmode : p.game_mode = GameMode.Survival) :
    handleBlockInteraction s cid BlockAction.Break origin direction =
      ({ s with
           chunk_map := s.chunk_map.set_block hit.block_pos.x hit.block_pos.y
             hit.block_pos.z BlockType.Air,
           next_entity_id := s.next_entity_id + 1,
           dropped_items := ainsert s.next_entity_id
             ⟨ItemStack.new (s.chunk_map.get_block hit.block_pos.x hit.block_pos.y
                hit.block_pos.z) 1,
              ⟨(hit.block_pos.x : ℚ) + 0.5, (hit.block_pos.y : ℚ) + 0.5,
               (hit.block_pos.z : ℚ) + 0.5⟩,
              ⟨0, 4.0, 0⟩, false, 0⟩ s.dropped_items },
       [Eff.broadcastExcept cid
          (ServerMessage.BlockChanged hit.block_pos BlockType.Air),
        Eff.broadcastExcept cid
          (ServerMessage.DroppedItemSpawned s.next_entity_id
            (ItemStack.new (s.chunk_map.get_block hit.block_pos.x hit.block_pos.y
              hit.block_pos.z) 1)
            ⟨(hit.block_pos.x : ℚ) + 0.5, (hit.block_pos.y : ℚ) + 0.5,
             (hit.block_pos.z : ℚ) + 0.5⟩
            ⟨0, 4.0, 0⟩)]) ∧
    (∀ connected : List Nat,
      ∀ e ∈ (handleBlockInteraction s cid BlockAction.Break origin direction).2,
        Eff.deliveredTo connected cid e = none) := by
  have hred : handleBlockInteraction s cid BlockAction.Break origin direction =
      ({ s with
           chunk_map := s.chunk_map.set_block hit.block_pos.x hit.block_pos.y
             hit.block_pos.z BlockType.Air,
           next_entity_id := s.next_entity_id + 1,
           dropped_items := ainsert s.next_entity_id
             ⟨ItemStack.new (s.chunk_map.get_block hit.block_pos.x hit.block_pos.y
                hit.block_pos.z) 1,
              ⟨(hit.block_pos.x : ℚ) + 0.5, (hit.block_pos.y : ℚ) + 0.5,
               (hit.block_pos.z : ℚ) + 0.5⟩,
              ⟨0, 4.0, 0⟩, false, 0⟩ s.dropped_items },
       [Eff.broadcastExcept cid
          (ServerMessage.BlockChanged hit.block_pos BlockType.Air),
        Eff.broadcastExcept cid
          (ServerMessage.DroppedItemSpawned s.next_entity_id
            (ItemStack.new (s.chunk_map.get_block hit.block_pos.x hit.block_pos.y
              hit.block_pos.z) 1)
            ⟨(hit.block_pos.x : ℚ) + 0.5, (hit.block_pos.y : ℚ) + 0.5,
             (hit.block_pos.z : ℚ) + 0.5⟩
            ⟨0, 4.0, 0⟩)]) := by
    unfold handleBlockInteraction
    rw [hdda, hp]
    simp only [Option.map_some, Option.map_some', Option.getD_some, hmode]
    simp
  refine ⟨hred, ?_⟩
  intro connected e he
  rw [hred] at he
  simp only [List.mem_cons, List.mem_singleton, List.not_mem_nil, or_false] at he
  rcases he with h | h <;> simp [h, Eff.deliveredTo]

end Rustcraft

namespace Rustcraft

/-- World holding a single Grass block at `(5,10,5)` in chunk `(0,0)`. -/
def grassMap : ChunkMap :=
  ⟨[(((0 : Int), (0 : Int)), Chunk.new.set_block 5 10 5 BlockType.Grass)]⟩

/-- A player in Survival mode at the default spawn state. -/
def survivalPlayer : PlayerState :=
  { PlayerState.default with game_mode := GameMode.Survival }

/-- Two-client session for the break scenario: actor 0 in Survival mode,
bystander 1, world `grassMap`. -/
def breakSession : WorldSession :=
  { WorldSession.new "ABC123" with
      chunk_map := grassMap,
      players := [(0, survivalPlayer), (1, PlayerState.default)] }

set_option maxRecDepth 100000 in
/-- C3 counterexample: when Survival player 0 breaks the Grass block at
`(5,10,5)` with both clients 0 and 1 connected, no effect emitted by the
handler delivers any message to the actor 0 (so in particular the actor
receives no `BlockChanged`), while client 1 does receive
`BlockChanged{(5,10,5), Air}` — refuting the claim that the broadcast
includes the actor. -/
theorem break_broadcast_includes_actor_cex :
    ((handleBlockInteraction breakSession 0 BlockAction.Break
        ⟨5.5, 10.5, 2.5⟩ ⟨0, 0, 1⟩).2.all
      (fun e => (Eff.deliveredTo [0, 1] 0 e).isNone) = true) ∧
    ((handleBlockInteraction breakSession 0 BlockAction.Break
        ⟨5.5, 10.5, 2.5⟩ ⟨0, 0, 1⟩).2.any
      (fun e => Eff.deliveredTo [0, 1] 1 e =
        some (ServerMessage.BlockChanged ⟨5, 10, 5⟩ BlockType.Air)) = true) := by
  constructor
  · with_unfolding_all decide
  · with_unfolding_all decide

set_option maxRecDepth 100000 in
/-- C3 witness: the amended theorem applied to the concrete break of the
Grass block at `(5,10,5)`: the emitted effects are exactly the two
`broadcast_except(actor)` messages `BlockChanged{(5,10,5), Air}` and
`DroppedItemSpawned{1, Grass×1, (5.5,10.5,5.5), (0,4,0)}`. -/
theorem break_survival_broadcasts_except_actor_witness :
    (handleBlockInteraction breakSession 0 BlockAction.Break
        ⟨5.5, 10.5, 2.5⟩ ⟨0, 0, 1⟩).2 =
      [Eff.broadcastExcept 0
         (ServerMessage.BlockChanged ⟨5, 10, 5⟩ BlockType.Air),
       Eff.broadcastExcept 0
         (ServerMessage.DroppedItemSpawned 1 (ItemStack.new BlockType.Grass 1)
           ⟨5.5, 10.5, 5.5⟩ ⟨0, 4.0, 0⟩)] := by
  have h := break_survival_broadcasts_except_actor breakSession 0
    ⟨5.5, 10.5, 2.5⟩ ⟨0, 0, 1⟩ ⟨⟨5, 10, 5⟩, ⟨0, 0, -1⟩⟩ survivalPlayer
    (by with_unfolding_all decide) (by with_unfolding_all rfl) rfl
  rw [h.1]
  with_unfolding_all decide

end Rustcraft

namespace Rustcraft

/-! Claim C4 — `move_with_collision`. -/

/-- Coordinates of a two-block-thick wall: x ∈ {2,3}, y ∈ 0..3, z ∈ 0..2. -/
def wallCells : List (Nat × Nat × Nat) :=
  [2, 3].flatMap fun x =>
    [0, 1, 2, 3].flatMap fun y => [0, 1, 2].map fun z => (x, y, z)

def wallChunk : Chunk :=
  wallCells.foldl (fun c t => c.set_block t.1 t.2.1 t.2.2 BlockType.Stone) Chunk.new

def wallMap : ChunkMap := ⟨[(((0 : Int), (0 : Int)), wallChunk)]⟩

set_option maxRecDepth 100000 in
/-- C4 counterexample: from the non-overlapping start `(0.5,0.5,0.5)`, the
delta `(3.5,0,0)` sweeps the player through a wall two blocks thick; the
per-axis snap only backs the AABB up to the boundary of the cell its
leading face ended in, so the returned position `(3.7,1,1.3)` still
overlaps the wall — refuting the never-overlapping clause of the claim. -/
theorem move_with_collision_overlap_cex :
    collides_with_world ⟨0.5, 0.5, 0.5⟩ wallMap = false ∧
    collides_with_world
      (move_with_collision ⟨0.5, 0.5, 0.5⟩ ⟨3.5, 0, 0⟩ wallMap).1 wallMap = true := by
  constructor
  · with_unfolding_all decide
  · with_unfolding_all decide

theorem resolveZ_y (p : Vec3) (dz : ℚ) (m : ChunkMap) :
    (resolveZ p dz m).y = p.y := by
  unfold resolveZ
  by_cases h : collides_with_world { p with z := p.z + dz } m
  · by_cases h₂ : dz > 0 <;> simp [h, h₂]
  · simp [h]

/-- C4 (amended): the never-overlap clause fails for large deltas (see the
counterexample), but the Y-axis clamp clause holds: whenever the position
reached by the Y move (from the X-resolved position) overlaps a solid
block, the returned position is clamped to the block surface along Y —
head face to the cell boundary with `hit_ceiling` set when moving up
(`delta.y > 0`), feet to the top of the block below with `hit_floor` set
otherwise — and the Z stage never changes the Y coordinate or the flags. -/
theorem move_with_collision_y_clamp (pos delta : Vec3) (m : ChunkMap)
    (hcol : collides_with_world
      { resolveX pos delta.x m with
          y := (resolveX pos delta.x m).y + delta.y } m = true) :
    (delta.y > 0 →
      (move_with_collision pos delta m).1.y =
        (qfloor ((resolveX pos delta.x m).y + delta.y + PLAYER_HEIGHT) : ℚ) -
          PLAYER_HEIGHT ∧
      (move_with_collision pos delta m).2.2 = true) ∧
    (¬ delta.y > 0 →
      (move_with_collision pos delta m).1.y =
        (qfloor ((resolveX pos delta.x m).y + delta.y) : ℚ) + 1 ∧
      (move_with_collision pos delta m).2.1 = true) := by
  unfold move_with_collision
  constructor
  · intro hdy
    unfold resolveY
    simp only [hcol, if_true, hdy]
    constructor
    · rw [resolveZ_y]
    · trivial
  · intro hdy
    unfold resolveY
    simp only [hcol, if_true, hdy, if_false]
    constructor
    · rw [resolveZ_y]
    · trivial

/-- World with a single Stone floor block at `(0,0,0)`. -/
def groundMap : ChunkMap :=
  ⟨[(((0 : Int), (0 : Int)), Chunk.new.set_block 0 0 0 BlockType.Stone)]⟩

set_option maxRecDepth 100000 in
/-- C4 witness: falling by one unit onto the Stone block at `(0,0,0)` from
feet height 1.5 clamps the feet to the block surface `y = 1` and sets
`hit_floor`. -/
theorem move_with_collision_y_clamp_witness :
    (move_with_collision ⟨0.5, 1.5, 0.5⟩ ⟨0, -1, 0⟩ groundMap).1.y = 1 ∧
    (move_with_collision ⟨0.5, 1.5, 0.5⟩ ⟨0, -1, 0⟩ groundMap).2.1 = true := by
  have h := (move_with_collision_y_clamp ⟨0.5, 1.5, 0.5⟩ ⟨0, -1, 0⟩ groundMap
    (by with_unfolding_all decide)).2 (by with_unfolding_all decide)
  refine ⟨?_, h.2⟩
  rw [h.1]
  with_unfolding_all decide

end Rustcraft

namespace Rustcraft

/-! Claim C5 — DDA against the first solid cell of its traversal. -/

/-- The three possible entry-face normals: the negated step direction on
the axis the traversal last advanced. -/
def axisNormals (step : IVec3) : List IVec3 :=
  [⟨-step.x, 0, 0⟩, ⟨0, -step.y, 0⟩, ⟨0, 0, -step.z⟩]

/-- Initial loop state of `dda_raycast` for a given ray. -/
def ddaInitState (origin direction : Vec3) : DdaState :=
  ⟨origin.floorCell,
   tMaxInit origin.floorCell.x origin.x direction.x,
   tMaxInit origin.floorCell.y origin.y direction.y,
   tMaxInit origin.floorCell.z origin.z direction.z,
   IVec3.zero⟩

/-- The step-sign vector of a ray. -/
def ddaStep (direction : Vec3) : IVec3 :=
  ⟨stepOf direction.x, stepOf direction.y, stepOf direction.z⟩

/-- The cells (with entry normals) the DDA traversal of a ray examines,
within the step budget and max reach. -/
def dda_visited (origin direction : Vec3) : List (IVec3 × IVec3) :=
  ddaPath origin (ddaStep direction) (tDeltaOf direction.x) (tDeltaOf direction.y)
    (tDeltaOf direction.z) max_steps (ddaInitState origin direction)

theorem ddaLoop_eq_find (m : ChunkMap) (origin : Vec3) (step : IVec3)
    (tdx tdy tdz : TVal) :
    ∀ (fuel : Nat) (s : DdaState),
      ddaLoop m origin step tdx tdy tdz fuel s =
        ((ddaPath origin step tdx tdy tdz fuel s).find?
          (fun e => (m.get_block_iv e.1).is_solid)).map (fun e => ⟨e.1, e.2⟩) := by
  intro fuel
  induction fuel with
  | zero => intro s; rfl
  | succ n ih =>
    intro s
    rw [ddaLoop, ddaPath]
    by_cases hsolid : (m.get_block_iv s.pos).is_solid
    · simp [hsolid, List.find?]
    · simp only [hsolid, if_false, Bool.false_eq_true]
      rw [List.find?]
      simp only [hsolid]
      by_cases hreach : cellDistSq (ddaAdvance step tdx tdy tdz s).pos origin >
          MAX_REACH * MAX_REACH
      · simp [hreach, List.find?]
      · simp only [hreach, if_false]
        exact ih (ddaAdvance step tdx tdy tdz s)

theorem dda_raycast_eq_find (origin direction : Vec3) (m : ChunkMap) :
    dda_raycast origin direction m =
      ((dda_visited origin direction).find?
        (fun e => (m.get_block_iv e.1).is_solid)).map (fun e => ⟨e.1, e.2⟩) := by
  unfold dda_raycast dda_visited ddaInitState ddaStep
  exact ddaLoop_eq_find m origin _ _ _ _ max_steps _

theorem ddaAdvance_normal_mem (step : IVec3) (tdx tdy tdz : TVal) (s : DdaState) :
    (ddaAdvance step tdx tdy tdz s).normal ∈ axisNormals step := by
  unfold ddaAdvance axisNormals
  by_cases h₁ : s.tx.blt s.ty && s.tx.blt s.tz
  · simp [h₁]
  · by_cases h₂ : s.ty.blt s.tz <;> simp [h₁, h₂]

theorem ddaPath_entry_shape (origin : Vec3) (step : IVec3) (tdx tdy tdz : TVal) :
    ∀ (fuel : Nat) (s : DdaState),
      ∀ e ∈ ddaPath origin step tdx tdy tdz fuel s,
        e = (s.pos, s.normal) ∨ e.2 ∈ axisNormals step := by
  intro fuel
  induction fuel with
  | zero => intro s e he; simp [ddaPath] at he
  | succ n ih =>
    intro s e he
    rw [ddaPath] at he
    rcases List.mem_cons.mp he with h | h
    · exact Or.inl h
    · right
      by_cases hreach : cellDistSq (ddaAdvance step tdx tdy tdz s).pos origin >
          MAX_REACH * MAX_REACH
      · simp [hreach] at h
      · simp only [hreach, if_false] at h
        rcases ih (ddaAdvance step tdx tdy tdz s) e h with h₂ | h₂
        · rw [h₂]
          exact ddaAdvance_normal_mem step tdx tdy tdz s
        · exact h₂

theorem find?_eq_head?_filter {α : Type} (p : α → Bool) (l : List α) :
    l.find? p = (l.filter p).head? := by
  induction l with
  | nil => rfl
  | cons hd tl ih =>
    by_cases h : p hd
    · simp [List.find?, List.filter, h]
    · rw [List.find?, List.filter]
      simp only [h, cond_false]
      exact ih

/-- C5: first, if the origin cell is not solid and the DDA traversal of
the ray — the cells it examines within the step budget and max reach —
contains exactly one solid cell, then `dda_raycast` returns exactly that
cell, with its recorded entry normal, and that normal is the negation of
the step direction on the axis the traversal last advanced; second, if no
visited cell is solid, `dda_raycast` returns no hit. -/
theorem dda_raycast_single_solid_spec (origin direction : Vec3) (m : ChunkMap) :
    (∀ c n, (m.get_block_iv origin.floorCell).is_solid = false →
      (dda_visited origin direction).filter
          (fun e => (m.get_block_iv e.1).is_solid) = [(c, n)] →
      dda_raycast origin direction m = some ⟨c, n⟩ ∧
        n ∈ axisNormals (ddaStep direction)) ∧
    ((dda_visited origin direction).all
        (fun e => ! (m.get_block_iv e.1).is_solid) = true →
      dda_raycast origin direction m = none) := by
  constructor
  · intro c n horig hfilter
    have hfind : (dda_visited origin direction).find?
        (fun e => (m.get_block_iv e.1).is_solid) = some (c, n) := by
      rw [find?_eq_head?_filter, hfilter]
      rfl
    constructor
    · rw [dda_raycast_eq_find, hfind]
      rfl
    · have hmem : ((c, n) : IVec3 × IVec3) ∈
          (dda_visited origin direction).filter
            (fun e => (m.get_block_iv e.1).is_solid) := by
        rw [hfilter]
        exact List.mem_singleton_self _
      have hsolid : (m.get_block_iv c).is_solid = true :=
        (List.mem_filter.mp hmem).2
      have hmem₂ : ((c, n) : IVec3 × IVec3) ∈ dda_visited origin direction :=
        (List.mem_filter.mp hmem).1
      rcases ddaPath_entry_shape origin (ddaStep direction) _ _ _ max_steps
          (ddaInitState origin direction) (c, n) hmem₂ with h | h
      · exfalso
        have hc : c = origin.floorCell := congrArg Prod.fst h
        rw [hc, horig] at hsolid
        exact Bool.false_ne_true hsolid
      · exact h
  · intro hall
    rw [dda_raycast_eq_find]
    have : (dda_visited origin direction).find?
        (fun e => (m.get_block_iv e.1).is_solid) = none := by
      rw [List.find?_eq_none]
      intro x hx
      have := List.all_eq_true.mp hall x hx
      simpa using this
    rw [this]
    rfl

set_option maxRecDepth 1000000 in
/-- C5 witness: against the single Grass block at `(5,10,5)`, the ray from
`(5.5,10.5,2.5)` along `+z` visits exactly one solid cell and hits it with
normal `(0,0,-1)` (the negated `+z` step); the ray along `-z` from the
same origin visits no solid cell and returns no hit. -/
theorem dda_raycast_single_solid_spec_witness :
    dda_raycast ⟨5.5, 10.5, 2.5⟩ ⟨0, 0, 1⟩ grassMap =
      some ⟨⟨5, 10, 5⟩, ⟨0, 0, -1⟩⟩ ∧
    dda_raycast ⟨5.5, 10.5, 2.5⟩ ⟨0, 0, -1⟩ grassMap = none := by
  constructor
  · exact ((dda_raycast_single_solid_spec ⟨5.5, 10.5, 2.5⟩ ⟨0, 0, 1⟩ grassMap).1
      ⟨5, 10, 5⟩ ⟨0, 0, -1⟩ (by with_unfolding_all decide)
      (by with_unfolding_all decide)).1
  · exact (dda_raycast_single_solid_spec ⟨5.5, 10.5, 2.5⟩ ⟨0, 0, -1⟩ grassMap).2
      (by with_unfolding_all decide)

end Rustcraft

namespace Rustcraft

/-! Claim C8 — pickup resolution. -/

theorem alookup_ainsert {K V : Type} [DecidableEq K] (k k₂ : K) (v : V)
    (l : List (K × V)) :
    alookup k (ainsert k₂ v l) = if k₂ = k then some v else alookup k l := by
  by_cases h : k₂ = k
  · rw [if_pos h, h]
    exact alookup_ainsert_self k v l
  · rw [if_neg h]
    exact alookup_ainsert_ne v l h

theorem alookup_mem {K V : Type} [DecidableEq K] {k : K} {v : V}
    {l : List (K × V)} (h : alookup k l = some v) : (k, v) ∈ l := by
  induction l with
  | nil => simp [alookup] at h
  | cons hd tl ih =>
    rw [alookup] at h
    by_cases h₂ : hd.1 = k
    · rw [if_pos h₂] at h
      cases h
      rw [← h₂]
      exact List.mem_cons_self hd tl
    · rw [if_neg h₂] at h
      exact List.mem_cons_of_mem hd (ih h)

theorem mem_alookup_nodup {K V : Type} [DecidableEq K] {k : K} {v : V}
    {l : List (K × V)} (hnd : (l.map Prod.fst).Nodup) (h : (k, v) ∈ l) :
    alookup k l = some v := by
  induction l with
  | nil => simp at h
  | cons hd tl ih =>
    rcases List.mem_cons.mp h with h₂ | h₂
    · rw [← h₂, alookup, if_pos rfl]
    · have hk : hd.1 ≠ k := by
        intro hc
        have : hd.1 ∈ tl.map Prod.fst := by
          rw [hc]
          exact List.mem_map_of_mem Prod.fst h₂
        exact (List.nodup_cons.mp hnd).1 this
      rw [alookup, if_neg hk]
      exact ih (List.nodup_cons.mp hnd).2 h₂

theorem aerase_keys_sublist {K V : Type} [DecidableEq K] (k : K)
    (l : List (K × V)) :
    List.Sublist ((aerase k l).map Prod.fst) (l.map Prod.fst) := by
  induction l with
  | nil => simp [aerase]
  | cons hd tl ih =>
    by_cases h : hd.1 = k
    · rw [aerase, if_pos h]
      exact (List.map Prod.fst tl).sublist_cons_self hd.1
    · rw [aerase, if_neg h]
      simpa using List.Sublist.cons₂ hd.1 ih

theorem alookup_aerase_self_nodup {K V : Type} [DecidableEq K] (k : K)
    {l : List (K × V)} (hnd : (l.map Prod.fst).Nodup) :
    alookup k (aerase k l) = none := by
  induction l with
  | nil => rfl
  | cons hd tl ih =>
    by_cases h : hd.1 = k
    · rw [aerase, if_pos h]
      cases halt : alookup k tl with
      | none => rfl
      | some v =>
        exfalso
        have hmem := alookup_mem halt
        have : k ∈ tl.map Prod.fst := by
          simpa using List.mem_map_of_mem Prod.fst hmem
        rw [← h] at this
        exact (List.nodup_cons.mp hnd).1 this
    · rw [aerase, if_neg h, alookup, if_neg h]
      exact ih (List.nodup_cons.mp hnd).2

theorem filterMap_fst_sublist {A B C : Type} (f : A → Option (C × B))
    (g : A → C) (hfg : ∀ a p, f a = some p → p.1 = g a) (l : List A) :
    List.Sublist ((l.filterMap f).map Prod.fst) (l.map g) := by
  induction l with
  | nil => simp
  | cons a tl ih =>
    cases hfa : f a with
    | none =>
      rw [List.filterMap_cons_none hfa, List.map_cons]
      exact ih.cons (g a)
    | some p =>
      rw [List.filterMap_cons_some hfa, List.map_cons, List.map_cons,
        hfg a p hfa]
      exact ih.cons₂ (g a)

theorem pickupCandidates_keys_sublist (s : WorldSession) :
    List.Sublist ((pickupCandidates s).map Prod.fst)
      (s.dropped_items.map Prod.fst) := by
  unfold pickupCandidates
  apply filterMap_fst_sublist
  intro a p hfa
  by_cases hage : a.2.age < pickup_delay
  · rw [if_pos hage] at hfa
    cases hfa
  · rw [if_neg hage] at hfa
    cases hfind : (s.players.find? _) with
    | none =>
      rw [hfind] at hfa
      cases hfa
    | some cp =>
      rw [hfind] at hfa
      cases hfa
      rfl

/-- Dropped-item and despawn-broadcast preservation for entities the scan
did not collect. -/
theorem processCollected_not_removed (id : Nat) :
    ∀ (collected : List (Nat × Nat)) (s : WorldSession),
      id ∉ collected.map Prod.fst →
      alookup id (processCollected collected s).1.dropped_items =
        alookup id s.dropped_items ∧
      ∀ e ∈ (processCollected collected s).2,
        e ≠ Eff.broadcast (ServerMessage.DroppedItemRemoved id) := by
  intro collected
  induction collected with
  | nil =>
    intro s h
    exact ⟨rfl, by intro e he; simp [processCollected] at he⟩
  | cons hd tl ih =>
    intro s h
    have hne : hd.1 ≠ id := by
      intro hc
      exact h (by rw [← hc]; exact List.mem_map_of_mem Prod.fst (List.mem_cons_self hd tl))
    have htl : id ∉ tl.map Prod.fst := fun hc => h (List.mem_cons_of_mem _ hc)
    obtain ⟨eid, cid⟩ := hd
    rw [processCollected]
    cases hitem : alookup eid s.dropped_items with
    | none => exact ih s htl
    | some item =>
      simp only
      cases hinv : alookup cid
          { s with dropped_items := aerase eid s.dropped_items }.inventories with
      | none =>
        rcases ih _ htl with ⟨h₁, h₂⟩
        refine ⟨?_, h₂⟩
        rw [h₁]
        simpa using alookup_aerase_ne s.dropped_items hne
      | some inv =>
        simp only
        rcases ih _ htl with ⟨h₁, h₂⟩
        constructor
        · rw [h₁]
          simpa using alookup_aerase_ne s.dropped_items hne
        · intro e he
          rcases List.mem_cons.mp he with he₁ | he₁
          · rw [he₁]
            simp [hne]
          · rcases List.mem_cons.mp he₁ with he₂ | he₂
            · rw [he₂]
              simp
            · exact h₂ e he₂

/-- When the scan collected `(id, cid)` and the bookkeeping is sound, the
collection phase removes the entity, broadcasts its despawn, and sends the
collector the inventory updated by `add_stack` of the item's stack. -/
theorem processCollected_collects (id cid : Nat) (item : DroppedItemState) :
    ∀ (collected : List (Nat × Nat)) (s : WorldSession),
      (id, cid) ∈ collected →
      (collected.map Prod.fst).Nodup →
      (s.dropped_items.map Prod.fst).Nodup →
      alookup id s.dropped_items = some item →
      (alookup cid s.inventories).isSome = true →
      alookup id (processCollected collected s).1.dropped_items = none ∧
      Eff.broadcast (ServerMessage.DroppedItemRemoved id) ∈
        (processCollected collected s).2 ∧
      (∃ inv : Inventory,
        Eff.sendTo cid (ServerMessage.InventoryUpdate
          ((inv.add_stack item.stack.block item.stack.count).1.slots)
          ((inv.add_stack item.stack.block item.stack.count).1.active_slot)) ∈
        (processCollected collected s).2) := by
  intro collected
  induction collected with
  | nil =>
    intro s hmem
    simp at hmem
  | cons hd tl ih =>
    intro s hmem hcnd hdnd hlook hinv
    rcases List.mem_cons.mp hmem with hhd | htl
    · -- the head entry is ours
      rw [← hhd]
      rw [← hhd] at hcnd
      rw [processCollected, hlook]
      simp only
      rcases Option.isSome_iff_exists.mp hinv with ⟨inv, hinv₂⟩
      have hinv₃ : alookup cid
          { s with dropped_items := aerase id s.dropped_items }.inventories =
            some inv := hinv₂
      rw [hinv₃]
      simp only
      have hidtl : id ∉ tl.map Prod.fst := (List.nodup_cons.mp hcnd).1
      rcases processCollected_not_removed id tl _ hidtl with ⟨h₁, _⟩
      refine ⟨?_, by simp, ⟨inv, by simp⟩⟩
      rw [h₁]
      simpa using alookup_aerase_self_nodup id hdnd
    · -- ours is further down the list
      have hne : hd.1 ≠ id ∨ hd.2 ≠ cid ∨ (hd.1 = id ∧ hd.2 = cid) := by
        tauto
      have hne₂ : hd.1 ≠ id := by
        intro hc
        have : id ∈ tl.map Prod.fst := List.mem_map_of_mem Prod.fst htl
        rw [← hc] at this
        exact (List.nodup_cons.mp hcnd).1 this
      obtain ⟨eid, cid₂⟩ := hd
      have hne₃ : eid ≠ id := hne₂
      rw [processCollected]
      cases hitem : alookup eid s.dropped_items with
      | none =>
        exact ih s htl (List.nodup_cons.mp hcnd).2 hdnd hlook hinv
      | some item₂ =>
        simp only
        have hdnd₂ : ((aerase eid s.dropped_items).map Prod.fst).Nodup :=
          hdnd.sublist (aerase_keys_sublist eid s.dropped_items)
        have hlook₂ : alookup id (aerase eid s.dropped_items) = some item := by
          rw [alookup_aerase_ne s.dropped_items hne₃]
          exact hlook
        cases hinv₂ : alookup cid₂
            { s with dropped_items := aerase eid s.dropped_items }.inventories with
        | none =>
          exact ih _ htl (List.nodup_cons.mp hcnd).2 hdnd₂ hlook₂ hinv
        | some inv₂ =>
          simp only
          have hinv₃ : (alookup cid
              { s with
                  dropped_items := aerase eid s.dropped_items,
                  inventories := ainsert cid₂
                    (inv₂.add_stack item₂.stack.block item₂.stack.count).1
                    s.inventories }.inventories).isSome = true := by
            simp only
            rw [alookup_ainsert]
            by_cases hc : cid₂ = cid
            · rw [if_pos hc]
              rfl
            · rw [if_neg hc]
              exact hinv
          rcases ih _ htl (List.nodup_cons.mp hcnd).2 hdnd₂ hlook₂ hinv₃ with
            ⟨h₁, h₂, inv₃, h₃⟩
          exact ⟨h₁, List.mem_cons_of_mem _ (List.mem_cons_of_mem _ h₂),
            ⟨inv₃, List.mem_cons_of_mem _ (List.mem_cons_of_mem _ h₃)⟩⟩

end Rustcraft

namespace Rustcraft

/-- C8: if an entity id maps to a dropped item (keys unique, the `HashMap`
invariant), then: (a) when no player within the pickup radius has an
inventory with a slot that can accept the item's block type, pickup
resolution leaves the item in `dropped_items` and never broadcasts
`DroppedItemRemoved` for it that tick; (b) when the item is past the
pickup delay and some player within the radius has a compatible slot, that
tick removes the entity, broadcasts `DroppedItemRemoved{id}`, and sends
the collecting player an `InventoryUpdate` carrying an inventory to which
the item's stack has been merged by `add_stack`. -/
theorem pickup_inventory_spec (s : WorldSession) (id : Nat)
    (item : DroppedItemState)
    (hnd : (s.dropped_items.map Prod.fst).Nodup)
    (hitem : alookup id s.dropped_items = some item) :
    ((∀ cid p inv, (cid, p) ∈ s.players →
        Vec3.distSq p.position item.position ≤ pickup_radius * pickup_radius →
        alookup cid s.inventories = some inv →
        inv.find_slot_for item.stack.block = none) →
      alookup id (server_pickup_items s).1.dropped_items = some item ∧
      ∀ e ∈ (server_pickup_items s).2,
        e ≠ Eff.broadcast (ServerMessage.DroppedItemRemoved id)) ∧
    ((¬ item.age < pickup_delay) →
      (∃ cid p inv, (cid, p) ∈ s.players ∧
        Vec3.distSq p.position item.position ≤ pickup_radius * pickup_radius ∧
        alookup cid s.inventories = some inv ∧
        (inv.find_slot_for item.stack.block).isSome = true) →
      alookup id (server_pickup_items s).1.dropped_items = none ∧
      Eff.broadcast (ServerMessage.DroppedItemRemoved id) ∈
        (server_pickup_items s).2 ∧
      (∃ (c : Nat) (inv : Inventory), Eff.sendTo c (ServerMessage.InventoryUpdate
          ((inv.add_stack item.stack.block item.stack.count).1.slots)
          ((inv.add_stack item.stack.block item.stack.count).1.active_slot)) ∈
        (server_pickup_items s).2)) := by
  constructor
  · intro hno
    have hid : id ∉ (pickupCandidates s).map Prod.fst := by
      intro hin
      rcases List.mem_map.mp hin with ⟨pr, hpr, hfst⟩
      rcases List.mem_filterMap.mp hpr with ⟨ei, hei, hfe⟩
      by_cases hage : ei.2.age < pickup_delay
      · rw [if_pos hage] at hfe
        cases hfe
      · rw [if_neg hage] at hfe
        cases hfind : (s.players.find? (fun cp =>
            decide (Vec3.distSq cp.2.position ei.2.position ≤
              pickup_radius * pickup_radius)
            && match alookup cp.1 s.inventories with
               | some inv => (inv.find_slot_for ei.2.stack.block).isSome
               | none => false)) with
        | none =>
          rw [hfind] at hfe
          cases hfe
        | some cp =>
          rw [hfind] at hfe
          cases hfe
          have heid : ei.1 = id := hfst
          have hinlist : (id, ei.2) ∈ s.dropped_items := by
            rw [← heid]
            exact hei
          have hsome : alookup id s.dropped_items = some ei.2 :=
            mem_alookup_nodup hnd hinlist
          have hitem₂ : ei.2 = item := by
            rw [hsome] at hitem
            exact Option.some.inj hitem
          have hpred := List.find?_some hfind
          have hmemp := List.mem_of_find?_eq_some hfind
          rw [Bool.and_eq_true] at hpred
          rcases hpred with ⟨hdist, hslot⟩
          cases hinv : alookup cp.1 s.inventories with
          | none =>
            rw [hinv] at hslot
            cases hslot
          | some inv =>
            rw [hinv] at hslot
            have hmemp₂ : (cp.1, cp.2) ∈ s.players := hmemp
            have hns := hno cp.1 cp.2 inv hmemp₂
              (by
                have := of_decide_eq_true hdist
                rw [hitem₂] at this
                exact this)
              hinv
            rw [hitem₂] at hslot
            have hslot₂ : (inv.find_slot_for item.stack.block).isSome = true :=
              hslot
            rw [hns] at hslot₂
            cases hslot₂
    rcases processCollected_not_removed id (pickupCandidates s) s hid with ⟨h₁, h₂⟩
    exact ⟨by rw [server_pickup_items, h₁, hitem], by
      rw [server_pickup_items] at *
      exact h₂⟩
  · intro hage hex
    rcases hex with ⟨cid, p, inv, hcp, hdist, hinv, hslot⟩
    have hpred : (fun (cp : Nat × PlayerState) =>
        decide (Vec3.distSq cp.2.position item.position ≤
          pickup_radius * pickup_radius)
        && match alookup cp.1 s.inventories with
           | some inv => (inv.find_slot_for item.stack.block).isSome
           | none => false) (cid, p) = true := by
      simp only
      rw [hinv]
      rw [Bool.and_eq_true]
      exact ⟨decide_eq_true hdist, hslot⟩
    have hfsome : (s.players.find? (fun cp =>
        decide (Vec3.distSq cp.2.position item.position ≤
          pickup_radius * pickup_radius)
        && match alookup cp.1 s.inventories with
           | some inv => (inv.find_slot_for item.stack.block).isSome
           | none => false)).isSome = true :=
      List.find?_isSome.mpr ⟨(cid, p), hcp, hpred⟩
    rcases Option.isSome_iff_exists.mp hfsome with ⟨cp, hfind⟩
    have hmemc : (id, cp.1) ∈ pickupCandidates s := by
      apply List.mem_filterMap.mpr
      refine ⟨(id, item), alookup_mem hitem, ?_⟩
      rw [if_neg hage, hfind]
      rfl
    have hcnd : ((pickupCandidates s).map Prod.fst).Nodup :=
      hnd.sublist (pickupCandidates_keys_sublist s)
    have hinvS : (alookup cp.1 s.inventories).isSome = true := by
      have hpredc := List.find?_some hfind
      rw [Bool.and_eq_true] at hpredc
      rcases hpredc with ⟨_, hslot₂⟩
      cases hinv₂ : alookup cp.1 s.inventories with
      | none =>
        rw [hinv₂] at hslot₂
        cases hslot₂
      | some inv₂ => rfl
    have hres := processCollected_collects id cp.1 item (pickupCandidates s) s
      hmemc hcnd hnd hitem hinvS
    rcases hres with ⟨h₁, h₂, inv₃, h₃⟩
    unfold server_pickup_items
    exact ⟨h₁, h₂, cp.1, inv₃, h₃⟩

end Rustcraft

namespace Rustcraft

/-- A dropped Grass unit resting at the default spawn position, 2 seconds
old (past the 1.5-second pickup delay). -/
def grassItem : DroppedItemState :=
  ⟨ItemStack.new BlockType.Grass 1, PlayerState.default.position, Vec3.zero, true, 2⟩

/-- An inventory with every slot holding a full stack of Stone: no slot
can accept a Grass item. -/
def fullInventory : Inventory :=
  ⟨List.replicate 36 (some (ItemStack.new BlockType.Stone 64)), 0⟩

/-- Pickup scenario with a full inventory. -/
def pickupSessionFull : WorldSession :=
  { WorldSession.new "ABC123" with
      players := [(0, PlayerState.default)],
      inventories := [(0, fullInventory)],
      dropped_items := [(5, grassItem)] }

/-- Pickup scenario with the default inventory (slot 7 is empty). -/
def pickupSessionRoom : WorldSession :=
  { WorldSession.new "ABC123" with
      players := [(0, PlayerState.default)],
      inventories := [(0, Inventory.default)],
      dropped_items := [(5, grassItem)] }

set_option maxRecDepth 100000 in
/-- C8 witness: with the only nearby player's inventory full, the dropped
Grass stays and no despawn is broadcast; with the default inventory, the
same tick removes it and broadcasts `DroppedItemRemoved{5}`. -/
theorem pickup_inventory_spec_witness :
    (alookup 5 (server_pickup_items pickupSessionFull).1.dropped_items =
      some grassItem) ∧
    (alookup 5 (server_pickup_items pickupSessionRoom).1.dropped_items = none ∧
     Eff.broadcast (ServerMessage.DroppedItemRemoved 5) ∈
       (server_pickup_items pickupSessionRoom).2) := by
  constructor
  · refine ((pickup_inventory_spec pickupSessionFull 5 grassItem (by with_unfolding_all decide)
      (by with_unfolding_all rfl)).1 ?_).1
    intro cid p inv hmem hdist hinv
    have hpair : (cid, p) = ((0 : Nat), PlayerState.default) :=
      List.mem_singleton.mp hmem
    have hcid : cid = 0 := congrArg Prod.fst hpair
    rw [hcid] at hinv
    have h₅ : alookup (0 : Nat) pickupSessionFull.inventories =
        some fullInventory := rfl
    rw [h₅] at hinv
    cases hinv
    with_unfolding_all decide
  · have h := (pickup_inventory_spec pickupSessionRoom 5 grassItem (by with_unfolding_all decide)
      (by with_unfolding_all rfl)).2
      (by with_unfolding_all decide)
      ⟨0, PlayerState.default, Inventory.default,
        List.mem_singleton.mpr rfl,
        by with_unfolding_all decide,
        by with_unfolding_all rfl,
        by with_unfolding_all decide⟩
    exact ⟨h.1, h.2.1⟩

end Rustcraft

namespace Rustcraft

/-! Claim C9 — no duplicate `ChunkData` per (player, chunk). -/

/-- The set of chunks currently recorded as streamed to player `p` (empty
when the player has no entry). -/
def streamedSet (s : WorldSession) (p : Nat) : List ChunkPos :=
  (alookup p s.loaded_chunks_per_player).getD []

/-- Does an effect send `ChunkData` for chunk `c` to player `p`? -/
def sendsChunkData (p : Nat) (c : ChunkPos) : Eff → Bool
  | Eff.sendTo i (ServerMessage.ChunkData pos _) => decide (i = p) && decide (pos = c)
  | _ => false

/-- Does an effect send `ChunkUnload` for chunk `c` to player `p`? -/
def sendsChunkUnload (p : Nat) (c : ChunkPos) : Eff → Bool
  | Eff.sendTo i (ServerMessage.ChunkUnload pos) => decide (i = p) && decide (pos = c)
  | _ => false

/-- Bookkeeping invariants every reachable session satisfies: unique
player and streamed-set keys, and streamed-set entries only for connected
players. -/
def GoodState (s : WorldSession) : Prop :=
  (s.players.map Prod.fst).Nodup ∧
  (s.loaded_chunks_per_player.map Prod.fst).Nodup ∧
  (∀ p, (alookup p s.loaded_chunks_per_player).isSome = true →
    (alookup p s.players).isSome = true)

/-- A trace is admissible when every `Connect` event targets a client id
that is not currently a player (a fresh TCP connection id). -/
def OkEvents (load : ChunkPos → Chunk) : WorldSession → List SEvent → Prop
  | _, [] => True
  | s, e :: rest =>
    (∀ cid a n, e = SEvent.connect cid a n → alookup cid s.players = none) ∧
    OkEvents load (stepEvent load s e).1 rest

/-- The session state just before event `k` of a trace. -/
def stateAt (load : ChunkPos → Chunk) : WorldSession → List SEvent → Nat → WorldSession
  | s, _, 0 => s
  | s, [], _ + 1 => s
  | s, e :: rest, k + 1 => stateAt load (stepEvent load s e).1 rest k

theorem traceEffs_get? (load : ChunkPos → Chunk) :
    ∀ (evs : List SEvent) (s : WorldSession) (k : Nat),
      (traceEffs load s evs).get? k =
        (evs.get? k).map (fun e => (stepEvent load (stateAt load s evs k) e).2) := by
  intro evs
  induction evs with
  | nil => intro s k; cases k <;> rfl
  | cons e rest ih =>
    intro s k
    cases k with
    | zero => rfl
    | succ n =>
      rw [traceEffs]
      simpa [stateAt] using ih (stepEvent load s e).1 n

/-! Facts about the shared chunk-sending loop. -/

theorem streamChunksTo_state (load : ChunkPos → Chunk) (cid : Nat) :
    ∀ (chunks : List ChunkPos) (s : WorldSession),
      (streamChunksTo load cid chunks s).1.players = s.players ∧
      (streamChunksTo load cid chunks s).1.loaded_chunks_per_player =
        s.loaded_chunks_per_player := by
  intro chunks
  induction chunks with
  | nil => intro s; exact ⟨rfl, rfl⟩
  | cons p rest ih =>
    intro s
    rw [streamChunksTo]
    cases halt : alookup p (WorldSession.ensure_chunk_loaded load s p).chunk_map.chunks with
    | some chunk =>
      simp only
      have he : (WorldSession.ensure_chunk_loaded load s p).players = s.players ∧
          (WorldSession.ensure_chunk_loaded load s p).loaded_chunks_per_player =
            s.loaded_chunks_per_player := by
        unfold WorldSession.ensure_chunk_loaded
        by_cases hin : (alookup p s.chunk_map.chunks).isSome <;> simp [hin]
      rcases ih (WorldSession.ensure_chunk_loaded load s p) with ⟨h₁, h₂⟩
      rw [h₁, h₂, he.1, he.2]
      exact ⟨rfl, rfl⟩
    | none =>
      simp only
      have he : (WorldSession.ensure_chunk_loaded load s p).players = s.players ∧
          (WorldSession.ensure_chunk_loaded load s p).loaded_chunks_per_player =
            s.loaded_chunks_per_player := by
        unfold WorldSession.ensure_chunk_loaded
        by_cases hin : (alookup p s.chunk_map.chunks).isSome <;> simp [hin]
      rcases ih (WorldSession.ensure_chunk_loaded load s p) with ⟨h₁, h₂⟩
      rw [h₁, h₂, he.1, he.2]
      exact ⟨rfl, rfl⟩

theorem streamChunksTo_effs (load : ChunkPos → Chunk) (cid : Nat) :
    ∀ (chunks : List ChunkPos) (s : WorldSession),
      ∀ e ∈ (streamChunksTo load cid chunks s).2,
        ∃ c blocks, c ∈ chunks ∧ e = Eff.sendTo cid (ServerMessage.ChunkData c blocks) := by
  intro chunks
  induction chunks with
  | nil => intro s e he; simp [streamChunksTo] at he
  | cons p rest ih =>
    intro s e he
    rw [streamChunksTo] at he
    cases halt : alookup p (WorldSession.ensure_chunk_loaded load s p).chunk_map.chunks with
    | some chunk =>
      rw [halt] at he
      simp only at he
      rcases List.mem_cons.mp he with h | h
      · exact ⟨p, chunk.blocks, List.mem_cons_self p rest, h⟩
      · rcases ih _ e h with ⟨c, blocks, hc, heq⟩
        exact ⟨c, blocks, List.mem_cons_of_mem p hc, heq⟩
    | none =>
      rw [halt] at he
      simp only at he
      rcases ih _ e he with ⟨c, blocks, hc, heq⟩
      exact ⟨c, blocks, List.mem_cons_of_mem p hc, heq⟩

theorem streamChunksTo_countP (load : ChunkPos → Chunk) (cid p : Nat) (c : ChunkPos) :
    ∀ (chunks : List ChunkPos) (s : WorldSession),
      (streamChunksTo load cid chunks s).2.countP (sendsChunkData p c) ≤
        chunks.countP (fun x => decide (x = c)) := by
  intro chunks
  induction chunks with
  | nil => intro s; simp [streamChunksTo]
  | cons q rest ih =>
    intro s
    rw [streamChunksTo]
    cases halt : alookup q (WorldSession.ensure_chunk_loaded load s q).chunk_map.chunks with
    | some chunk =>
      simp only
      rw [List.countP_cons, List.countP_cons]
      by_cases hq : q = c
      · have h₁ : (decide (q = c) : Bool) = true := decide_eq_true hq
        have h₂ : (if sendsChunkData p c
            (Eff.sendTo cid (ServerMessage.ChunkData q chunk.blocks)) = true
            then 1 else 0) ≤ 1 := by
          split <;> omega
        have := ih (WorldSession.ensure_chunk_loaded load s q)
        simp only [h₁, if_true]
        omega
      · have h₁ : (decide (q = c) : Bool) = false := decide_eq_false hq
        have h₂ : sendsChunkData p c
            (Eff.sendTo cid (ServerMessage.ChunkData q chunk.blocks)) = false := by
          show (decide (cid = p) && decide (q = c)) = false
          rw [decide_eq_false hq]
          simp
        have := ih (WorldSession.ensure_chunk_loaded load s q)
        simp only [h₁, h₂, if_false]
        omega
    | none =>
      simp only
      have := ih (WorldSession.ensure_chunk_loaded load s q)
      rw [List.countP_cons]
      split <;> omega

end Rustcraft
namespace Rustcraft

theorem ainsert_keys {K V : Type} [DecidableEq K] (k : K) (v : V) :
    ∀ (l : List (K × V)), (ainsert k v l).map Prod.fst =
      if k ∈ l.map Prod.fst then l.map Prod.fst else l.map Prod.fst ++ [k] := by
  intro l
  induction l with
  | nil => simp [ainsert]
  | cons hd tl ih =>
    by_cases h : hd.1 = k
    · rw [ainsert, if_pos h]
      simp only [List.map_cons]
      have hmem : k ∈ hd.1 :: tl.map Prod.fst := by
        rw [h]
        exact List.mem_cons_self _ _
      rw [if_pos hmem, h]
    · rw [ainsert, if_neg h, List.map_cons, List.map_cons, ih]
      by_cases h₂ : k ∈ tl.map Prod.fst
      · rw [if_pos h₂, if_pos (List.mem_cons_of_mem hd.1 h₂)]
      · have : ¬ k ∈ hd.1 :: tl.map Prod.fst := by
          intro hc
          rcases List.mem_cons.mp hc with hc | hc
          · exact h hc.symm
          · exact h₂ hc
        rw [if_neg h₂, if_neg this, List.cons_append]

theorem ainsert_keys_nodup {K V : Type} [DecidableEq K] (k : K) (v : V)
    (l : List (K × V)) (hnd : (l.map Prod.fst).Nodup) :
    ((ainsert k v l).map Prod.fst).Nodup := by
  rw [ainsert_keys]
  by_cases h : k ∈ l.map Prod.fst
  · rw [if_pos h]
    exact hnd
  · rw [if_neg h]
    rw [List.nodup_append]
    exact ⟨hnd, List.nodup_singleton k, by
      intro x hx hk
      rw [List.mem_singleton.mp hk] at hx
      exact h hx⟩

theorem mem_keys_isSome {K V : Type} [DecidableEq K] {k : K}
    {l : List (K × V)} (h : k ∈ l.map Prod.fst) :
    (alookup k l).isSome = true := by
  induction l with
  | nil => simp at h
  | cons hd tl ih =>
    rw [alookup]
    by_cases h₂ : hd.1 = k
    · rw [if_pos h₂]
      rfl
    · rw [if_neg h₂]
      rcases List.mem_cons.mp h with h₃ | h₃
      · exact absurd h₃.symm h₂
      · exact ih h₃

theorem nodup_countP_eq_le_one {α : Type} [DecidableEq α] (c : α) :
    ∀ (l : List α), l.Nodup → l.countP (fun x => decide (x = c)) ≤ 1 := by
  intro l
  induction l with
  | nil => intro _; simp
  | cons hd tl ih =>
    intro hnd
    rcases List.nodup_cons.mp hnd with ⟨hni, hnd₂⟩
    rw [List.countP_cons]
    by_cases h : hd = c
    · have hz : tl.countP (fun x => decide (x = c)) = 0 := by
        rw [List.countP_eq_zero]
        intro x hx
        simp only [decide_eq_true_eq]
        intro hc
        rw [← h] at hc
        rw [hc] at hx
        exact hni hx
      simp [h, hz]
    · have := ih hnd₂
      simp only [h, decide_False]
      simpa using this

theorem intRange_nodup (a b : Int) : (intRange a b).Nodup := by
  unfold intRange
  refine List.Nodup.map ?_ (List.nodup_range _)
  intro x y h
  have h₂ : a + (x : Int) = a + (y : Int) := h
  omega

theorem chunks_in_view_radius_nodup (pos : Vec3) (radius : Int) :
    (chunks_in_view_radius pos radius).Nodup := by
  unfold chunks_in_view_radius
  simp only
  rw [List.nodup_flatMap]
  constructor
  · intro x _
    refine List.Nodup.map ?_ (intRange_nodup _ _)
    intro z₁ z₂ h
    exact ((Prod.mk.injEq _ _ _ _).mp h).2
  · refine List.Pairwise.imp ?_ (intRange_nodup _ _)
    intro x y hxy
    intro pr hx hy
    rcases List.mem_map.mp hx with ⟨z₁, _, hz₁⟩
    rcases List.mem_map.mp hy with ⟨z₂, _, hz₂⟩
    apply hxy
    have h₁ : pr.1 = x := by rw [← hz₁]
    have h₂ : pr.1 = y := by rw [← hz₂]
    rw [← h₁, h₂]

end Rustcraft

namespace Rustcraft

theorem mem_setInsert (x p : ChunkPos) (l : List ChunkPos) :
    x ∈ setInsert p l ↔ x ∈ l ∨ x = p := by
  unfold setInsert
  by_cases h : p ∈ l
  · rw [if_pos h]
    constructor
    · exact Or.inl
    · intro hx
      rcases hx with hx | hx
      · exact hx
      · rw [hx]
        exact h
  · rw [if_neg h]
    rw [List.mem_append, List.mem_singleton]

theorem mem_foldl_setInsert (x : ChunkPos) :
    ∀ (l acc : List ChunkPos),
      x ∈ l.foldl (fun a p => setInsert p a) acc ↔ x ∈ acc ∨ x ∈ l := by
  intro l
  induction l with
  | nil => intro acc; simp
  | cons hd tl ih =>
    intro acc
    rw [List.foldl_cons, ih, mem_setInsert]
    constructor
    · intro h
      rcases h with (h | h) | h
      · exact Or.inl h
      · exact Or.inr (by rw [h]; exact List.mem_cons_self hd tl)
      · exact Or.inr (List.mem_cons_of_mem hd h)
    · intro h
      rcases h with h | h
      · exact Or.inl (Or.inl h)
      · rcases List.mem_cons.mp h with h | h
        · exact Or.inl (Or.inr h)
        · exact Or.inr h

theorem streamForPlayer_players (load : ChunkPos → Chunk) (q : Nat) (pos : Vec3)
    (s : WorldSession) :
    (streamForPlayer load q pos s).1.players = s.players := by
  unfold streamForPlayer
  simp only
  rw [(streamChunksTo_state load q _ _).1]
  by_cases h : (alookup q s.loaded_chunks_per_player).isSome <;> simp [h]

theorem streamForPlayer_loaded_ne (load : ChunkPos → Chunk) (q : Nat) (pos : Vec3)
    (s : WorldSession) (p : Nat) (hne : p ≠ q) :
    alookup p (streamForPlayer load q pos s).1.loaded_chunks_per_player =
      alookup p s.loaded_chunks_per_player := by
  unfold streamForPlayer
  simp only
  rw [alookup_ainsert_ne _ _ (Ne.symm hne)]
  rw [(streamChunksTo_state load q _ _).2]
  by_cases h : (alookup q s.loaded_chunks_per_player).isSome
  · simp [h]
  · simp only [h, if_false]
    exact alookup_ainsert_ne _ _ (Ne.symm hne)

end Rustcraft

namespace Rustcraft

theorem unload_effs_no_chunkdata (q p : Nat) (c : ChunkPos) (l : List ChunkPos) :
    (l.map (fun u => Eff.sendTo q (ServerMessage.ChunkUnload u))).countP
      (sendsChunkData p c) = 0 := by
  rw [List.countP_eq_zero]
  intro e he
  rcases List.mem_map.mp he with ⟨u, _, heq⟩
  rw [← heq]
  intro hc
  exact Bool.false_ne_true hc

theorem streamChunksTo_countP_le_one (load : ChunkPos → Chunk) (cid p : Nat)
    (c : ChunkPos) (chunks : List ChunkPos) (s : WorldSession)
    (hnd : chunks.Nodup) :
    (streamChunksTo load cid chunks s).2.countP (sendsChunkData p c) ≤ 1 :=
  le_trans (streamChunksTo_countP load cid p c chunks s)
    (nodup_countP_eq_le_one c chunks hnd)

theorem streamChunksTo_countP_ne (load : ChunkPos → Chunk) (cid p : Nat)
    (c : ChunkPos) (chunks : List ChunkPos) (s : WorldSession)
    (hne : cid ≠ p) :
    (streamChunksTo load cid chunks s).2.countP (sendsChunkData p c) = 0 := by
  rw [List.countP_eq_zero]
  intro e he
  rcases streamChunksTo_effs load cid chunks s e he with ⟨c₂, blocks, _, heq⟩
  rw [heq]
  intro hc
  have hc₂ : (decide (cid = p) && decide (c₂ = c)) = true := hc
  rw [decide_eq_false hne] at hc₂
  simp at hc₂

theorem streamForPlayer_countP (load : ChunkPos → Chunk) (q : Nat) (pos : Vec3)
    (s : WorldSession) (p : Nat) (c : ChunkPos) :
    (streamForPlayer load q pos s).2.countP (sendsChunkData p c) ≤ 1 := by
  unfold streamForPlayer
  simp only
  rw [List.countP_append, unload_effs_no_chunkdata, Nat.add_zero]
  by_cases hpq : q = p
  · apply streamChunksTo_countP_le_one
    exact List.Nodup.sublist (List.take_sublist _ _)
      ((chunks_in_view_radius_nodup pos VIEW_DISTANCE).filter _)
  · rw [streamChunksTo_countP_ne load q p c _ _ hpq]
    omega

end Rustcraft

namespace Rustcraft

theorem streamForPlayer_sends (load : ChunkPos → Chunk) (q : Nat) (pos : Vec3)
    (s : WorldSession) (p : Nat) (c : ChunkPos)
    (h : (streamForPlayer load q pos s).2.any (sendsChunkData p c) = true) :
    p = q ∧ c ∉ streamedSet s p ∧
      c ∈ streamedSet (streamForPlayer load q pos s).1 p := by
  unfold streamForPlayer at h ⊢
  simp only at h ⊢
  rcases List.any_eq_true.mp h with ⟨e, he, hpe⟩
  rcases List.mem_append.mp he with he₁ | he₁
  · rcases streamChunksTo_effs load q _ _ e he₁ with ⟨c₂, blocks, hc₂, heq⟩
    rw [heq] at hpe
    have hpe₂ : (decide (q = p) && decide (c₂ = c)) = true := hpe
    rw [Bool.and_eq_true] at hpe₂
    have hqp : q = p := of_decide_eq_true hpe₂.1
    have hcc : c₂ = c := of_decide_eq_true hpe₂.2
    subst hqp
    rw [hcc] at hc₂
    have hsent := hc₂
    have hts : c ∈ (chunks_in_view_radius pos VIEW_DISTANCE).filter
        (fun x => decide (x ∉ (alookup q s.loaded_chunks_per_player).getD [])) :=
      (List.take_sublist _ _).subset hsent
    rcases List.mem_filter.mp hts with ⟨hvis, hdec⟩
    have hnotin : c ∉ (alookup q s.loaded_chunks_per_player).getD [] :=
      of_decide_eq_true hdec
    refine ⟨rfl, hnotin, ?_⟩
    show c ∈ (alookup q (ainsert q _ _)).getD []
    rw [alookup_ainsert_self]
    show c ∈ List.filter _ _
    refine List.mem_filter.mpr ⟨?_, ?_⟩
    · rw [mem_foldl_setInsert]
      exact Or.inr hsent
    · refine decide_eq_true ?_
      intro hun
      rcases List.mem_filter.mp hun with ⟨hl, _⟩
      exact hnotin hl
  · exfalso
    rcases List.mem_map.mp he₁ with ⟨u, _, heq⟩
    rw [← heq] at hpe
    exact Bool.false_ne_true hpe

theorem streamForPlayer_persist (load : ChunkPos → Chunk) (q : Nat) (pos : Vec3)
    (s : WorldSession) (c : ChunkPos)
    (hin : c ∈ streamedSet s q)
    (hnu : (streamForPlayer load q pos s).2.any (sendsChunkUnload q c) = false) :
    c ∈ streamedSet (streamForPlayer load q pos s).1 q := by
  have hsome : (alookup q s.loaded_chunks_per_player).isSome = true := by
    unfold streamedSet at hin
    cases halt : alookup q s.loaded_chunks_per_player with
    | none =>
      rw [halt] at hin
      simp at hin
    | some l => rfl
  unfold streamedSet at hin ⊢
  unfold streamForPlayer at hnu ⊢
  simp only at hnu ⊢
  rw [if_pos hsome] at hnu ⊢
  have hcnu : c ∉ ((alookup q s.loaded_chunks_per_player).getD []).filter
      (fun x => decide (x ∉ chunks_in_view_radius pos VIEW_DISTANCE)) := by
    intro hun
    have hmeme : Eff.sendTo q (ServerMessage.ChunkUnload c) ∈
        (((alookup q s.loaded_chunks_per_player).getD []).filter
          (fun x => decide (x ∉ chunks_in_view_radius pos VIEW_DISTANCE))).map
          (fun u => Eff.sendTo q (ServerMessage.ChunkUnload u)) :=
      List.mem_map_of_mem _ hun
    rw [List.any_eq_false] at hnu
    refine hnu _ (List.mem_append_right _ hmeme) ?_
    show (decide (q = q) && decide (c = c)) = true
    simp
  rw [alookup_ainsert_self]
  show c ∈ List.filter _ _
  refine List.mem_filter.mpr ⟨?_, ?_⟩
  · rw [mem_foldl_setInsert]
    left
    rw [(streamChunksTo_state load q _ _).2]
    exact hin
  · exact decide_eq_true hcnu

end Rustcraft

namespace Rustcraft

theorem streamForPlayer_countP_ne (load : ChunkPos → Chunk) (q : Nat) (pos : Vec3)
    (s : WorldSession) (p : Nat) (c : ChunkPos) (hne : q ≠ p) :
    (streamForPlayer load q pos s).2.countP (sendsChunkData p c) = 0 := by
  unfold streamForPlayer
  simp only
  rw [List.countP_append, unload_effs_no_chunkdata,
    streamChunksTo_countP_ne load q p c _ _ hne]

theorem streamPlayers_players (load : ChunkPos → Chunk) :
    ∀ (lst : List (Nat × Vec3)) (s : WorldSession),
      (streamPlayers load lst s).1.players = s.players := by
  intro lst
  induction lst with
  | nil => intro s; rfl
  | cons hd tl ih =>
    intro s
    rw [streamPlayers]
    simp only
    rw [ih, streamForPlayer_players]

theorem streamPlayers_loaded_not_mem (load : ChunkPos → Chunk) (p : Nat) :
    ∀ (lst : List (Nat × Vec3)) (s : WorldSession),
      p ∉ lst.map Prod.fst →
      alookup p (streamPlayers load lst s).1.loaded_chunks_per_player =
        alookup p s.loaded_chunks_per_player := by
  intro lst
  induction lst with
  | nil => intro s _; rfl
  | cons hd tl ih =>
    intro s hnm
    have hne : p ≠ hd.1 := by
      intro hc
      exact hnm (by rw [hc]; exact List.mem_map_of_mem Prod.fst (List.mem_cons_self hd tl))
    have htl : p ∉ tl.map Prod.fst := fun hc => hnm (List.mem_cons_of_mem _ hc)
    obtain ⟨q, pos⟩ := hd
    rw [streamPlayers]
    simp only
    rw [ih _ htl, streamForPlayer_loaded_ne load q pos s p hne]

theorem streamPlayers_countP_zero (load : ChunkPos → Chunk) (p : Nat) (c : ChunkPos) :
    ∀ (lst : List (Nat × Vec3)) (s : WorldSession),
      p ∉ lst.map Prod.fst →
      (streamPlayers load lst s).2.countP (sendsChunkData p c) = 0 := by
  intro lst
  induction lst with
  | nil => intro s _; rfl
  | cons hd tl ih =>
    intro s hnm
    have hne : hd.1 ≠ p := by
      intro hc
      exact hnm (by rw [← hc]; exact List.mem_map_of_mem Prod.fst (List.mem_cons_self hd tl))
    have htl : p ∉ tl.map Prod.fst := fun hc => hnm (List.mem_cons_of_mem _ hc)
    obtain ⟨q, pos⟩ := hd
    rw [streamPlayers]
    simp only
    rw [List.countP_append, streamForPlayer_countP_ne load q pos s p c hne, ih _ htl]

theorem streamPlayers_countP (load : ChunkPos → Chunk) (p : Nat) (c : ChunkPos) :
    ∀ (lst : List (Nat × Vec3)) (s : WorldSession),
      (lst.map Prod.fst).Nodup →
      (streamPlayers load lst s).2.countP (sendsChunkData p c) ≤ 1 := by
  intro lst
  induction lst with
  | nil => intro s _; simp [streamPlayers]
  | cons hd tl ih =>
    intro s hnd
    rcases List.nodup_cons.mp hnd with ⟨hni, hnd₂⟩
    obtain ⟨q, pos⟩ := hd
    rw [streamPlayers]
    simp only
    rw [List.countP_append]
    by_cases hqp : q = p
    · subst hqp
      have h₁ := streamForPlayer_countP load q pos s q c
      have h₂ := streamPlayers_countP_zero load q c tl
        (streamForPlayer load q pos s).1 hni
      omega
    · rw [streamForPlayer_countP_ne load q pos s p c hqp]
      have := ih (streamForPlayer load q pos s).1 hnd₂
      omega

end Rustcraft

namespace Rustcraft

theorem streamPlayers_sends (load : ChunkPos → Chunk) (p : Nat) (c : ChunkPos) :
    ∀ (lst : List (Nat × Vec3)) (s : WorldSession),
      (lst.map Prod.fst).Nodup →
      (streamPlayers load lst s).2.any (sendsChunkData p c) = true →
      p ∈ lst.map Prod.fst ∧ c ∉ streamedSet s p ∧
        c ∈ streamedSet (streamPlayers load lst s).1 p := by
  intro lst
  induction lst with
  | nil =>
    intro s _ hany
    simp [streamPlayers] at hany
  | cons hd tl ih =>
    intro s hnd hany
    rcases List.nodup_cons.mp hnd with ⟨hni, hnd₂⟩
    obtain ⟨q, pos⟩ := hd
    rw [streamPlayers] at hany ⊢
    simp only at hany ⊢
    rw [List.any_append, Bool.or_eq_true] at hany
    rcases hany with hany | hany
    · rcases streamForPlayer_sends load q pos s p c hany with ⟨hpq, hfresh, hadd⟩
      subst hpq
      have hnm : p ∉ tl.map Prod.fst := hni
      refine ⟨List.mem_cons_self _ _, hfresh, ?_⟩
      unfold streamedSet
      rw [streamPlayers_loaded_not_mem load p tl _ hnm]
      exact hadd
    · have := ih (streamForPlayer load q pos s).1 hnd₂ hany
      rcases this with ⟨hmem, hfresh, hadd⟩
      have hqp : q ≠ p := by
        intro hc
        rw [hc] at hni
        exact hni hmem
      refine ⟨List.mem_cons_of_mem _ hmem, ?_, hadd⟩
      unfold streamedSet at hfresh ⊢
      rw [streamForPlayer_loaded_ne load q pos s p (Ne.symm hqp)] at hfresh
      exact hfresh

theorem streamPlayers_persist (load : ChunkPos → Chunk) (p : Nat) (c : ChunkPos) :
    ∀ (lst : List (Nat × Vec3)) (s : WorldSession),
      c ∈ streamedSet s p →
      (streamPlayers load lst s).2.any (sendsChunkUnload p c) = false →
      c ∈ streamedSet (streamPlayers load lst s).1 p := by
  intro lst
  induction lst with
  | nil => intro s hin _; exact hin
  | cons hd tl ih =>
    intro s hin hnu
    obtain ⟨q, pos⟩ := hd
    rw [streamPlayers] at hnu ⊢
    simp only at hnu ⊢
    rw [List.any_append, Bool.or_eq_false_iff] at hnu
    by_cases hqp : q = p
    · subst hqp
      have h₁ := streamForPlayer_persist load q pos s c hin hnu.1
      exact ih (streamForPlayer load q pos s).1 h₁ hnu.2
    · have h₁ : c ∈ streamedSet (streamForPlayer load q pos s).1 p := by
        unfold streamedSet at hin ⊢
        rw [streamForPlayer_loaded_ne load q pos s p (Ne.symm hqp)]
        exact hin
      exact ih (streamForPlayer load q pos s).1 h₁ hnu.2

end Rustcraft

namespace Rustcraft

theorem posKeys (lst : List (Nat × PlayerState)) :
    (lst.map (fun e => (e.1, e.2.position))).map Prod.fst = lst.map Prod.fst := by
  rw [List.map_map]
  rfl

theorem server_stream_chunks_effs (load : ChunkPos → Chunk) (s : WorldSession) :
    (server_stream_chunks load s).2 =
      (streamPlayers load (s.players.map (fun e => (e.1, e.2.position))) s).2 := rfl

theorem server_stream_chunks_loaded (load : ChunkPos → Chunk) (s : WorldSession) :
    (server_stream_chunks load s).1.loaded_chunks_per_player =
      (streamPlayers load (s.players.map (fun e => (e.1, e.2.position))) s).1.loaded_chunks_per_player := rfl

theorem server_stream_chunks_players (load : ChunkPos → Chunk) (s : WorldSession) :
    (server_stream_chunks load s).1.players = s.players := by
  have h : (server_stream_chunks load s).1.players =
      (streamPlayers load (s.players.map (fun e => (e.1, e.2.position))) s).1.players := rfl
  rw [h, streamPlayers_players]

theorem streamForPlayer_loaded_nodup (load : ChunkPos → Chunk) (q : Nat) (pos : Vec3)
    (s : WorldSession)
    (h : (s.loaded_chunks_per_player.map Prod.fst).Nodup) :
    ((streamForPlayer load q pos s).1.loaded_chunks_per_player.map Prod.fst).Nodup := by
  unfold streamForPlayer
  simp only
  apply ainsert_keys_nodup
  rw [(streamChunksTo_state load q _ _).2]
  by_cases hs : (alookup q s.loaded_chunks_per_player).isSome
  · rw [if_pos hs]
    exact h
  · rw [if_neg hs]
    exact ainsert_keys_nodup q [] _ h

theorem streamForPlayer_loaded_isSome (load : ChunkPos → Chunk) (q : Nat) (pos : Vec3)
    (s : WorldSession) (p : Nat)
    (h : (alookup p (streamForPlayer load q pos s).1.loaded_chunks_per_player).isSome = true) :
    p = q ∨ (alookup p s.loaded_chunks_per_player).isSome = true := by
  by_cases hpq : p = q
  · exact Or.inl hpq
  · rw [streamForPlayer_loaded_ne load q pos s p hpq] at h
    exact Or.inr h

theorem streamPlayers_loaded_nodup (load : ChunkPos → Chunk) :
    ∀ (lst : List (Nat × Vec3)) (s : WorldSession),
      (s.loaded_chunks_per_player.map Prod.fst).Nodup →
      ((streamPlayers load lst s).1.loaded_chunks_per_player.map Prod.fst).Nodup := by
  intro lst
  induction lst with
  | nil => intro s h; exact h
  | cons hd tl ih =>
    intro s h
    obtain ⟨q, pos⟩ := hd
    rw [streamPlayers]
    simp only
    exact ih _ (streamForPlayer_loaded_nodup load q pos s h)

theorem streamPlayers_loaded_isSome (load : ChunkPos → Chunk) (p : Nat) :
    ∀ (lst : List (Nat × Vec3)) (s : WorldSession),
      (alookup p (streamPlayers load lst s).1.loaded_chunks_per_player).isSome = true →
      p ∈ lst.map Prod.fst ∨ (alookup p s.loaded_chunks_per_player).isSome = true := by
  intro lst
  induction lst with
  | nil => intro s h; exact Or.inr h
  | cons hd tl ih =>
    intro s h
    obtain ⟨q, pos⟩ := hd
    rw [streamPlayers] at h
    simp only at h
    rcases ih _ h with h₂ | h₂
    · exact Or.inl (List.mem_cons_of_mem _ h₂)
    · rcases streamForPlayer_loaded_isSome load q pos s p h₂ with h₃ | h₃
      · exact Or.inl (by rw [h₃]; exact List.mem_cons_self _ _)
      · exact Or.inr h₃

end Rustcraft

namespace Rustcraft

theorem alookup_ainsert_isSome {K V : Type} [DecidableEq K] (k k₂ : K) (v : V)
    (l : List (K × V)) (h : (alookup k l).isSome = true) :
    (alookup k (ainsert k₂ v l)).isSome = true := by
  rw [alookup_ainsert]
  by_cases h₂ : k₂ = k
  · rw [if_pos h₂]
    rfl
  · rw [if_neg h₂]
    exact h

theorem handleConnect_bad (load : ChunkPos → Chunk) (s : WorldSession)
    (cid : Nat) (a n : String) (h : a ≠ s.auth_code) :
    handleConnect load s cid a n =
      (s, [Eff.sendTo cid (ServerMessage.ConnectRejected "Invalid auth code"),
           Eff.disconnect cid]) := by
  unfold handleConnect
  rw [if_pos h]

theorem handleConnect_state_ok (load : ChunkPos → Chunk) (s : WorldSession)
    (cid : Nat) (a n : String) (h : a = s.auth_code) :
    (handleConnect load s cid a n).1.players = ainsert cid PlayerState.default s.players ∧
    (handleConnect load s cid a n).1.loaded_chunks_per_player =
      ainsert cid (chunks_in_view_radius PlayerState.default.position VIEW_DISTANCE)
        (ainsert cid [] s.loaded_chunks_per_player) := by
  unfold handleConnect
  rw [if_neg (fun hc => hc h)]
  simp only
  constructor
  · rw [(streamChunksTo_state load cid _ _).1]
    rfl
  · rw [(streamChunksTo_state load cid _ _).2]
    rfl

theorem handleConnect_effs_ok (load : ChunkPos → Chunk) (s : WorldSession)
    (cid : Nat) (a n : String) (h : a = s.auth_code) :
    ∃ pre,
      (handleConnect load s cid a n).2 = pre ++
        (streamChunksTo load cid
          (chunks_in_view_radius PlayerState.default.position VIEW_DISTANCE)
          (s.add_player cid n)).2 ∧
      ∀ e ∈ pre, ∀ p c, sendsChunkData p c e = false ∧ sendsChunkUnload p c e = false := by
  unfold handleConnect
  rw [if_neg (fun hc => hc h)]
  simp only
  refine ⟨_, by rw [List.append_assoc, List.append_assoc, List.append_assoc,
    List.append_assoc, ← List.append_assoc, ← List.append_assoc,
    ← List.append_assoc], ?_⟩
  intro e he p c
  rcases List.mem_append.mp he with he | he
  · rcases List.mem_append.mp he with he | he
    · rcases List.mem_append.mp he with he | he
      · rcases List.mem_append.mp he with he | he
        · rcases List.mem_singleton.mp he with rfl
          exact ⟨rfl, rfl⟩
        · cases halt : alookup cid (s.add_player cid n).inventories with
          | none =>
            rw [halt] at he
            simp at he
          | some inv =>
            rw [halt] at he
            rcases List.mem_singleton.mp he with rfl
            exact ⟨rfl, rfl⟩
      · rcases List.mem_map.mp he with ⟨x, _, heq⟩
        rw [← heq]
        exact ⟨rfl, rfl⟩
    · rcases List.mem_filterMap.mp he with ⟨x, _, hfx⟩
      by_cases hx : x ≠ cid
      · rw [if_pos hx] at hfx
        rcases Option.some.inj hfx with rfl
        exact ⟨rfl, rfl⟩
      · rw [if_neg hx] at hfx
        exact absurd hfx (Option.noConfusion)
  · cases halt : alookup cid (s.add_player cid n).players with
    | none =>
      rw [halt] at he
      simp at he
    | some player =>
      rw [halt] at he
      rcases List.mem_singleton.mp he with rfl
      exact ⟨rfl, rfl⟩

end Rustcraft

namespace Rustcraft

theorem handleConnect_countP (load : ChunkPos → Chunk) (s : WorldSession)
    (cid : Nat) (a n : String) (p : Nat) (c : ChunkPos) :
    (handleConnect load s cid a n).2.countP (sendsChunkData p c) ≤ 1 := by
  by_cases h : a = s.auth_code
  · rcases handleConnect_effs_ok load s cid a n h with ⟨pre, heq, hpre⟩
    rw [heq, List.countP_append]
    have h₀ : pre.countP (sendsChunkData p c) = 0 := by
      rw [List.countP_eq_zero]
      intro e he hc
      rw [(hpre e he p c).1] at hc
      exact Bool.false_ne_true hc
    have h₁ := streamChunksTo_countP_le_one load cid p c
      (chunks_in_view_radius PlayerState.default.position VIEW_DISTANCE)
      (s.add_player cid n)
      (chunks_in_view_radius_nodup PlayerState.default.position VIEW_DISTANCE)
    omega
  · have h₀ : (handleConnect load s cid a n).2.countP (sendsChunkData p c) = 0 := by
      rw [handleConnect_bad load s cid a n h]
      rfl
    omega

theorem handleConnect_streamed_none (s : WorldSession) (cid : Nat)
    (hg : GoodState s) (hfresh : alookup cid s.players = none) :
    streamedSet s cid = [] := by
  unfold streamedSet
  cases halt : alookup cid s.loaded_chunks_per_player with
  | none => rfl
  | some l =>
    exfalso
    have hs : (alookup cid s.loaded_chunks_per_player).isSome = true := by
      rw [halt]; rfl
    have := hg.2.2 cid hs
    rw [hfresh] at this
    exact Bool.false_ne_true this

theorem handleConnect_sends (load : ChunkPos → Chunk) (s : WorldSession)
    (cid : Nat) (a n : String) (p : Nat) (c : ChunkPos)
    (hg : GoodState s) (hfresh : alookup cid s.players = none)
    (h : (handleConnect load s cid a n).2.any (sendsChunkData p c) = true) :
    c ∉ streamedSet s p ∧ c ∈ streamedSet (handleConnect load s cid a n).1 p := by
  by_cases ha : a = s.auth_code
  · rcases handleConnect_effs_ok load s cid a n ha with ⟨pre, heq, hpre⟩
    rw [heq, List.any_append, Bool.or_eq_true] at h
    rcases h with h | h
    · exfalso
      rcases List.any_eq_true.mp h with ⟨e, he, hpe⟩
      rw [(hpre e he p c).1] at hpe
      exact Bool.false_ne_true hpe
    · rcases List.any_eq_true.mp h with ⟨e, he, hpe⟩
      rcases streamChunksTo_effs load cid _ _ e he with ⟨c₂, blocks, hc₂, heq₂⟩
      rw [heq₂] at hpe
      have hpe₂ : (decide (cid = p) && decide (c₂ = c)) = true := hpe
      rw [Bool.and_eq_true] at hpe₂
      have hcp : cid = p := of_decide_eq_true hpe₂.1
      have hcc : c₂ = c := of_decide_eq_true hpe₂.2
      rw [hcc] at hc₂
      subst hcp
      constructor
      · rw [handleConnect_streamed_none s cid hg hfresh]
        exact List.not_mem_nil c
      · unfold streamedSet
        rw [(handleConnect_state_ok load s cid a n ha).2, alookup_ainsert_self]
        exact hc₂
  · exfalso
    rw [handleConnect_bad load s cid a n ha] at h
    rcases List.any_eq_true.mp h with ⟨e, he, hpe⟩
    rcases List.mem_cons.mp he with rfl | he
    · exact Bool.false_ne_true hpe
    · rcases List.mem_singleton.mp he with rfl
      exact Bool.false_ne_true hpe

theorem handleConnect_persist (load : ChunkPos → Chunk) (s : WorldSession)
    (cid : Nat) (a n : String) (p : Nat) (c : ChunkPos)
    (hg : GoodState s) (hfresh : alookup cid s.players = none)
    (hin : c ∈ streamedSet s p) :
    c ∈ streamedSet (handleConnect load s cid a n).1 p := by
  by_cases ha : a = s.auth_code
  · by_cases hpc : p = cid
    · exfalso
      rw [hpc, handleConnect_streamed_none s cid hg hfresh] at hin
      exact List.not_mem_nil c hin
    · unfold streamedSet at hin ⊢
      rw [(handleConnect_state_ok load s cid a n ha).2,
        alookup_ainsert_ne _ _ (fun hc => hpc hc.symm),
        alookup_ainsert_ne _ _ (fun hc => hpc hc.symm)]
      exact hin
  · rw [handleConnect_bad load s cid a n ha]
    exact hin

theorem handleConnect_good (load : ChunkPos → Chunk) (s : WorldSession)
    (cid : Nat) (a n : String) (hg : GoodState s) :
    GoodState (handleConnect load s cid a n).1 := by
  by_cases ha : a = s.auth_code
  · rcases handleConnect_state_ok load s cid a n ha with ⟨hp, hl⟩
    refine ⟨?_, ?_, ?_⟩
    · rw [hp]
      exact ainsert_keys_nodup _ _ _ hg.1
    · rw [hl]
      exact ainsert_keys_nodup _ _ _ (ainsert_keys_nodup _ _ _ hg.2.1)
    · intro q hq
      rw [hp]
      by_cases hqc : q = cid
      · rw [hqc, alookup_ainsert_self]
        rfl
      · rw [hl, alookup_ainsert_ne _ _ (fun hc => hqc hc.symm),
          alookup_ainsert_ne _ _ (fun hc => hqc hc.symm)] at hq
        rw [alookup_ainsert_ne _ _ (fun hc => hqc hc.symm)]
        exact hg.2.2 q hq
  · rw [handleConnect_bad load s cid a n ha]
    exact hg

end Rustcraft

namespace Rustcraft

theorem handleDisconnect_countP (s : WorldSession) (cid : Nat) (p : Nat) (c : ChunkPos) :
    (handleDisconnect s cid).2.countP (sendsChunkData p c) = 0 := by
  rw [List.countP_eq_zero]
  intro e he hc
  rcases List.mem_map.mp he with ⟨x, _, heq⟩
  rw [← heq] at hc
  exact Bool.false_ne_true hc

theorem handleDisconnect_loaded_ne (s : WorldSession) (cid : Nat) (p : Nat)
    (h : cid ≠ p) :
    alookup p (handleDisconnect s cid).1.loaded_chunks_per_player =
      alookup p s.loaded_chunks_per_player := by
  show alookup p (aerase cid s.loaded_chunks_per_player) = _
  exact alookup_aerase_ne _ h

theorem handleDisconnect_good (s : WorldSession) (cid : Nat) (hg : GoodState s) :
    GoodState (handleDisconnect s cid).1 := by
  refine ⟨?_, ?_, ?_⟩
  · exact List.Nodup.sublist (aerase_keys_sublist cid s.players) hg.1
  · exact List.Nodup.sublist (aerase_keys_sublist cid s.loaded_chunks_per_player) hg.2.1
  · intro q hq
    by_cases hqc : cid = q
    · exfalso
      have hz : alookup q (aerase cid s.loaded_chunks_per_player) = none := by
        rw [← hqc]
        exact alookup_aerase_self_nodup cid hg.2.1
      have hq₂ : (alookup q (aerase cid s.loaded_chunks_per_player)).isSome = true := hq
      rw [hz] at hq₂
      exact Bool.false_ne_true hq₂
    · have hq₂ : (alookup q (aerase cid s.loaded_chunks_per_player)).isSome = true := hq
      rw [alookup_aerase_ne _ hqc] at hq₂
      show (alookup q (aerase cid s.players)).isSome = true
      rw [alookup_aerase_ne _ hqc]
      exact hg.2.2 q hq₂

theorem stepEvent_moveTo (load : ChunkPos → Chunk) (s : WorldSession)
    (cid : Nat) (pos : Vec3) :
    (stepEvent load s (SEvent.moveTo cid pos)).2 = [] ∧
    (stepEvent load s (SEvent.moveTo cid pos)).1.loaded_chunks_per_player =
      s.loaded_chunks_per_player ∧
    ((s.players.map Prod.fst).Nodup →
      ((stepEvent load s (SEvent.moveTo cid pos)).1.players.map Prod.fst).Nodup) ∧
    (∀ q, (alookup q s.players).isSome = true →
      (alookup q (stepEvent load s (SEvent.moveTo cid pos)).1.players).isSome = true) := by
  cases halt : alookup cid s.players with
  | none =>
    have he : stepEvent load s (SEvent.moveTo cid pos) = (s, []) := by
      rw [stepEvent, halt]
    rw [he]
    exact ⟨rfl, rfl, fun h => h, fun q h => h⟩
  | some pl =>
    have he : stepEvent load s (SEvent.moveTo cid pos) =
        ({ s with players := ainsert cid { pl with position := pos } s.players }, []) := by
      rw [stepEvent, halt]
    rw [he]
    exact ⟨rfl, rfl, fun h => ainsert_keys_nodup _ _ _ h,
      fun q h => alookup_ainsert_isSome q cid _ _ h⟩

end Rustcraft

namespace Rustcraft

theorem stepEvent_countP (load : ChunkPos → Chunk) (s : WorldSession) (e : SEvent)
    (p : Nat) (c : ChunkPos) (hg : GoodState s) :
    (stepEvent load s e).2.countP (sendsChunkData p c) ≤ 1 := by
  cases e with
  | connect cid a n => exact handleConnect_countP load s cid a n p c
  | disconnect cid =>
    show (handleDisconnect s cid).2.countP (sendsChunkData p c) ≤ 1
    rw [handleDisconnect_countP]
    omega
  | stream =>
    show (server_stream_chunks load s).2.countP (sendsChunkData p c) ≤ 1
    rw [server_stream_chunks_effs]
    exact streamPlayers_countP load p c _ s (by rw [posKeys]; exact hg.1)
  | moveTo cid pos =>
    rw [(stepEvent_moveTo load s cid pos).1]
    simp

theorem stepEvent_sends (load : ChunkPos → Chunk) (s : WorldSession) (e : SEvent)
    (p : Nat) (c : ChunkPos) (hg : GoodState s)
    (hok : ∀ cid a n, e = SEvent.connect cid a n → alookup cid s.players = none)
    (h : (stepEvent load s e).2.any (sendsChunkData p c) = true) :
    c ∉ streamedSet s p ∧ c ∈ streamedSet (stepEvent load s e).1 p := by
  cases e with
  | connect cid a n =>
    exact handleConnect_sends load s cid a n p c hg (hok cid a n rfl) h
  | disconnect cid =>
    exfalso
    have h₂ : (handleDisconnect s cid).2.any (sendsChunkData p c) = true := h
    rcases List.any_eq_true.mp h₂ with ⟨x, hx, hpx⟩
    exact (List.countP_eq_zero.mp (handleDisconnect_countP s cid p c)) x hx hpx
  | stream =>
    have h₂ : (server_stream_chunks load s).2.any (sendsChunkData p c) = true := h
    rw [server_stream_chunks_effs] at h₂
    rcases streamPlayers_sends load p c _ s (by rw [posKeys]; exact hg.1) h₂ with
      ⟨_, hfresh, hadd⟩
    refine ⟨hfresh, ?_⟩
    show c ∈ streamedSet (server_stream_chunks load s).1 p
    unfold streamedSet at hadd ⊢
    rw [server_stream_chunks_loaded]
    exact hadd
  | moveTo cid pos =>
    exfalso
    rw [(stepEvent_moveTo load s cid pos).1] at h
    simp at h

theorem stepEvent_persist (load : ChunkPos → Chunk) (s : WorldSession) (e : SEvent)
    (p : Nat) (c : ChunkPos) (hg : GoodState s)
    (hok : ∀ cid a n, e = SEvent.connect cid a n → alookup cid s.players = none)
    (hin : c ∈ streamedSet s p)
    (hnu : (stepEvent load s e).2.any (sendsChunkUnload p c) = false)
    (hnd : e ≠ SEvent.disconnect p) :
    c ∈ streamedSet (stepEvent load s e).1 p := by
  cases e with
  | connect cid a n =>
    exact handleConnect_persist load s cid a n p c hg (hok cid a n rfl) hin
  | disconnect cid =>
    have hcp : cid ≠ p := fun hc => hnd (by rw [hc])
    show c ∈ streamedSet (handleDisconnect s cid).1 p
    unfold streamedSet at hin ⊢
    rw [handleDisconnect_loaded_ne s cid p hcp]
    exact hin
  | stream =>
    have hnu₂ : (server_stream_chunks load s).2.any (sendsChunkUnload p c) = false := hnu
    rw [server_stream_chunks_effs] at hnu₂
    have hps := streamPlayers_persist load p c _ s hin hnu₂
    show c ∈ streamedSet (server_stream_chunks load s).1 p
    unfold streamedSet at hps ⊢
    rw [server_stream_chunks_loaded]
    exact hps
  | moveTo cid pos =>
    show c ∈ streamedSet (stepEvent load s (SEvent.moveTo cid pos)).1 p
    unfold streamedSet at hin ⊢
    rw [(stepEvent_moveTo load s cid pos).2.1]
    exact hin

theorem stepEvent_good (load : ChunkPos → Chunk) (s : WorldSession) (e : SEvent)
    (hg : GoodState s) : GoodState (stepEvent load s e).1 := by
  cases e with
  | connect cid a n => exact handleConnect_good load s cid a n hg
  | disconnect cid => exact handleDisconnect_good s cid hg
  | stream =>
    refine ⟨?_, ?_, ?_⟩
    · show ((server_stream_chunks load s).1.players.map Prod.fst).Nodup
      rw [server_stream_chunks_players]
      exact hg.1
    · show ((server_stream_chunks load s).1.loaded_chunks_per_player.map Prod.fst).Nodup
      rw [server_stream_chunks_loaded]
      exact streamPlayers_loaded_nodup load _ s hg.2.1
    · intro q hq
      have hq₂ : (alookup q
          (server_stream_chunks load s).1.loaded_chunks_per_player).isSome = true := hq
      rw [server_stream_chunks_loaded] at hq₂
      show (alookup q (server_stream_chunks load s).1.players).isSome = true
      rw [server_stream_chunks_players]
      rcases streamPlayers_loaded_isSome load q _ s hq₂ with hmem | hsome
      · rw [posKeys] at hmem
        exact mem_keys_isSome hmem
      · exact hg.2.2 q hsome
  | moveTo cid pos =>
    refine ⟨(stepEvent_moveTo load s cid pos).2.2.1 hg.1, ?_, ?_⟩
    · show ((stepEvent load s (SEvent.moveTo cid pos)).1.loaded_chunks_per_player.map
        Prod.fst).Nodup
      rw [(stepEvent_moveTo load s cid pos).2.1]
      exact hg.2.1
    · intro q hq
      have hq₂ : (alookup q (stepEvent load s
          (SEvent.moveTo cid pos)).1.loaded_chunks_per_player).isSome = true := hq
      rw [(stepEvent_moveTo load s cid pos).2.1] at hq₂
      exact (stepEvent_moveTo load s cid pos).2.2.2 q (hg.2.2 q hq₂)

end Rustcraft

namespace Rustcraft

theorem stateAt_succ (load : ChunkPos → Chunk) :
    ∀ (evs : List SEvent) (s : WorldSession) (k : Nat) (e : SEvent),
      evs.get? k = some e →
      stateAt load s evs (k + 1) = (stepEvent load (stateAt load s evs k) e).1 := by
  intro evs
  induction evs with
  | nil =>
    intro s k e he
    simp at he
  | cons e₀ rest ih =>
    intro s k e he
    cases k with
    | zero =>
      have he₂ : e₀ = e := Option.some.inj he
      rw [he₂]
      simp [stateAt]
    | succ m =>
      have he₂ : rest.get? m = some e := he
      exact ih (stepEvent load s e₀).1 m e he₂

theorem goodState_stateAt (load : ChunkPos → Chunk) :
    ∀ (evs : List SEvent) (s : WorldSession), GoodState s →
      ∀ k, GoodState (stateAt load s evs k) := by
  intro evs
  induction evs with
  | nil =>
    intro s hg k
    cases k with
    | zero => exact hg
    | succ m => exact hg
  | cons e₀ rest ih =>
    intro s hg k
    cases k with
    | zero => exact hg
    | succ m => exact ih (stepEvent load s e₀).1 (stepEvent_good load s e₀ hg) m

theorem okEvents_at (load : ChunkPos → Chunk) :
    ∀ (evs : List SEvent) (s : WorldSession), OkEvents load s evs →
      ∀ k e, evs.get? k = some e →
        ∀ cid a n, e = SEvent.connect cid a n →
          alookup cid (stateAt load s evs k).players = none := by
  intro evs
  induction evs with
  | nil =>
    intro s _ k e he
    simp at he
  | cons e₀ rest ih =>
    intro s hok k e he cid a n heq
    cases k with
    | zero =>
      have he₂ : e₀ = e := Option.some.inj he
      exact hok.1 cid a n (by rw [he₂, heq])
    | succ m =>
      exact ih (stepEvent load s e₀).1 hok.2 m e he cid a n heq

end Rustcraft

namespace Rustcraft

/-- C9 — across any admissible event trace (fresh client ids on `Connect`)
from a session with sound bookkeeping, each step sends `ChunkData` for a
given (player, chunk) pair at most once, and two sends of the same pair at
distinct steps are separated by an intervening `ChunkUnload` for that pair
or by that player's disconnect: between entering the player's streamed set
and being unloaded (or the player leaving), a chunk is never re-sent. -/
theorem chunk_stream_no_duplicate (load : ChunkPos → Chunk) (s : WorldSession)
    (evs : List SEvent) (p : Nat) (c : ChunkPos)
    (hg : GoodState s) (hok : OkEvents load s evs) :
    (∀ k lk, (traceEffs load s evs).get? k = some lk →
      lk.countP (sendsChunkData p c) ≤ 1) ∧
    (∀ i j li lj, i < j →
      (traceEffs load s evs).get? i = some li →
      li.any (sendsChunkData p c) = true →
      (traceEffs load s evs).get? j = some lj →
      lj.any (sendsChunkData p c) = true →
      ∃ k, i < k ∧ k < j ∧
        ((∃ lk, (traceEffs load s evs).get? k = some lk ∧
            lk.any (sendsChunkUnload p c) = true) ∨
          evs.get? k = some (SEvent.disconnect p))) := by
  constructor
  · intro k lk hk
    rw [traceEffs_get?] at hk
    rcases Option.map_eq_some'.mp hk with ⟨ek, _, hlk⟩
    rw [← hlk]
    exact stepEvent_countP load _ ek p c (goodState_stateAt load evs s hg k)
  · intro i j li lj hij hi hani hj hanj
    by_contra hno
    push_neg at hno
    rw [traceEffs_get?] at hi hj
    rcases Option.map_eq_some'.mp hi with ⟨ei, hei, hli⟩
    rcases Option.map_eq_some'.mp hj with ⟨ej, hej, hlj⟩
    rw [← hli] at hani
    rw [← hlj] at hanj
    have hsends_i := stepEvent_sends load (stateAt load s evs i) ei p c
      (goodState_stateAt load evs s hg i)
      (okEvents_at load evs s hok i ei hei) hani
    have hsends_j := stepEvent_sends load (stateAt load s evs j) ej p c
      (goodState_stateAt load evs s hg j)
      (okEvents_at load evs s hok j ej hej) hanj
    have hlen : j < evs.length := by
      by_contra hc
      rw [List.get?_eq_none.mpr (Nat.le_of_not_lt hc)] at hej
      exact Option.noConfusion hej
    have hinv : ∀ m, i + 1 ≤ m → m ≤ j → c ∈ streamedSet (stateAt load s evs m) p := by
      intro m hm
      induction m, hm using Nat.le_induction with
      | base =>
        intro _
        rw [stateAt_succ load evs s i ei hei]
        exact hsends_i.2
      | succ m hm ih =>
        intro hmj1
        have hmj : m < j := hmj1
        have hmem : c ∈ streamedSet (stateAt load s evs m) p := ih (Nat.le_of_lt hmj)
        cases hem : evs.get? m with
        | none =>
          exfalso
          rw [List.get?_eq_none] at hem
          omega
        | some em =>
          rw [stateAt_succ load evs s m em hem]
          have him : i < m := hm
          rcases hno m him hmj with ⟨hnu₀, hnd₀⟩
          have htr : (traceEffs load s evs).get? m =
              some (stepEvent load (stateAt load s evs m) em).2 := by
            rw [traceEffs_get?, hem]
            rfl
          have hnu : (stepEvent load (stateAt load s evs m) em).2.any
              (sendsChunkUnload p c) = false := by
            cases hx : (stepEvent load (stateAt load s evs m) em).2.any
                (sendsChunkUnload p c) with
            | false => rfl
            | true => exact absurd hx (hnu₀ _ htr)
          have hnd : em ≠ SEvent.disconnect p := by
            intro hc
            rw [hc] at hem
            exact hnd₀ hem
          exact stepEvent_persist load (stateAt load s evs m) em p c
            (goodState_stateAt load evs s hg m)
            (okEvents_at load evs s hok m em hem) hmem hnu hnd
    exact hsends_j.1 (hinv j (Nat.succ_le_of_lt hij) (Nat.le_refl j))

end Rustcraft

namespace Rustcraft

theorem ensure_chunk_loaded_isSome (load : ChunkPos → Chunk) (s : WorldSession)
    (p : ChunkPos) :
    (alookup p (WorldSession.ensure_chunk_loaded load s p).chunk_map.chunks).isSome = true := by
  unfold WorldSession.ensure_chunk_loaded
  by_cases h : (alookup p s.chunk_map.chunks).isSome
  · rw [if_pos h]
    exact h
  · rw [if_neg h]
    show (alookup p (ainsert p (load p) s.chunk_map.chunks)).isSome = true
    rw [alookup_ainsert_self]
    rfl

theorem streamChunksTo_countP_eq (load : ChunkPos → Chunk) (cid : Nat) (c : ChunkPos) :
    ∀ (chunks : List ChunkPos) (s : WorldSession),
      (streamChunksTo load cid chunks s).2.countP (sendsChunkData cid c) =
        chunks.countP (fun x => decide (x = c)) := by
  intro chunks
  induction chunks with
  | nil => intro s; rfl
  | cons p rest ih =>
    intro s
    rw [streamChunksTo]
    cases halt : alookup p (WorldSession.ensure_chunk_loaded load s p).chunk_map.chunks with
    | none =>
      exfalso
      have := ensure_chunk_loaded_isSome load s p
      rw [halt] at this
      exact Bool.false_ne_true this
    | some chunk =>
      simp only
      rw [List.countP_cons, List.countP_cons, ih]
      have hpr : sendsChunkData cid c
          (Eff.sendTo cid (ServerMessage.ChunkData p chunk.blocks)) = decide (p = c) := by
        show (decide (cid = cid) && decide (p = c)) = decide (p = c)
        simp
      rw [hpr]

theorem streamChunksTo_auth (load : ChunkPos → Chunk) (cid : Nat) :
    ∀ (chunks : List ChunkPos) (s : WorldSession),
      (streamChunksTo load cid chunks s).1.auth_code = s.auth_code := by
  intro chunks
  induction chunks with
  | nil => intro s; rfl
  | cons p rest ih =>
    intro s
    rw [streamChunksTo]
    have he : (WorldSession.ensure_chunk_loaded load s p).auth_code = s.auth_code := by
      unfold WorldSession.ensure_chunk_loaded
      by_cases hin : (alookup p s.chunk_map.chunks).isSome
      · rw [if_pos hin]
      · rw [if_neg hin]
    cases halt : alookup p (WorldSession.ensure_chunk_loaded load s p).chunk_map.chunks with
    | some chunk =>
      simp only
      rw [ih, he]
    | none =>
      simp only
      rw [ih, he]

theorem handleConnect_auth (load : ChunkPos → Chunk) (s : WorldSession)
    (cid : Nat) (a n : String) :
    (handleConnect load s cid a n).1.auth_code = s.auth_code := by
  by_cases ha : a = s.auth_code
  · unfold handleConnect
    rw [if_neg (fun hc => hc ha)]
    simp only
    rw [streamChunksTo_auth]
    rfl
  · rw [handleConnect_bad load s cid a n ha]

theorem handleConnect_sends_chunk (load : ChunkPos → Chunk) (s : WorldSession)
    (cid : Nat) (a n : String) (c : ChunkPos) (ha : a = s.auth_code)
    (hc : c ∈ chunks_in_view_radius PlayerState.default.position VIEW_DISTANCE) :
    (handleConnect load s cid a n).2.any (sendsChunkData cid c) = true := by
  rcases handleConnect_effs_ok load s cid a n ha with ⟨pre, heq, hpre⟩
  rw [heq, List.any_append, Bool.or_eq_true]
  right
  have h₁ := streamChunksTo_countP_eq load cid c
    (chunks_in_view_radius PlayerState.default.position VIEW_DISTANCE)
    (s.add_player cid n)
  have h₂ : 0 < (chunks_in_view_radius PlayerState.default.position
      VIEW_DISTANCE).countP (fun x => decide (x = c)) :=
    List.countP_pos_iff.mpr ⟨c, hc, by simp⟩
  have h₃ : 0 < (streamChunksTo load cid
      (chunks_in_view_radius PlayerState.default.position VIEW_DISTANCE)
      (s.add_player cid n)).2.countP (sendsChunkData cid c) := by omega
  rcases List.countP_pos_iff.mp h₃ with ⟨e, he, hpe⟩
  exact List.any_eq_true.mpr ⟨e, he, hpe⟩

theorem handleConnect_no_unload (load : ChunkPos → Chunk) (s : WorldSession)
    (cid : Nat) (a n : String) (p : Nat) (c : ChunkPos) :
    (handleConnect load s cid a n).2.any (sendsChunkUnload p c) = false := by
  by_cases ha : a = s.auth_code
  · rcases handleConnect_effs_ok load s cid a n ha with ⟨pre, heq, hpre⟩
    rw [heq, List.any_append]
    have h₁ : pre.any (sendsChunkUnload p c) = false := by
      rw [List.any_eq_false]
      intro e he hc
      rw [(hpre e he p c).2] at hc
      exact Bool.false_ne_true hc
    have h₂ : (streamChunksTo load cid
        (chunks_in_view_radius PlayerState.default.position VIEW_DISTANCE)
        (s.add_player cid n)).2.any (sendsChunkUnload p c) = false := by
      rw [List.any_eq_false]
      intro e he hc
      rcases streamChunksTo_effs load cid _ _ e he with ⟨c₂, blocks, _, heq₂⟩
      rw [heq₂] at hc
      exact Bool.false_ne_true hc
    rw [h₁, h₂]
    rfl
  · rw [handleConnect_bad load s cid a n ha]
    rfl

end Rustcraft

namespace Rustcraft

/-- World generator for the duplicate-streaming scenario: every chunk is
the all-air `Chunk.new`. -/
def dupLoad : ChunkPos → Chunk := fun _ => Chunk.new

/-- Fresh session for the duplicate-streaming scenario. -/
def dupSession : WorldSession := WorldSession.new "ABC123"

/-- The offending trace: the same client id sends `Connect` twice with the
correct auth code (one TCP connection issuing a second `Connect` message). -/
def dupEvents : List SEvent :=
  [SEvent.connect 0 "ABC123" "Bob", SEvent.connect 0 "ABC123" "Bob"]

theorem dup_spawn_chunk_mem :
    ((4 : Int), (4 : Int)) ∈
      chunks_in_view_radius PlayerState.default.position VIEW_DISTANCE := by
  with_unfolding_all decide

set_option maxRecDepth 10000 in
/-- C9 counterexample — the property as claimed (with no condition on
`Connect` events) is false: a client that sends `Connect` twice is sent
`ChunkData` for its spawn chunk (4,4) at both steps, although the chunk
entered its streamed set at the first step and no `ChunkUnload` for the
pair and no disconnect occur anywhere in the trace. -/
theorem chunk_stream_duplicate_cex :
    ∃ li lj,
      (traceEffs dupLoad dupSession dupEvents).get? 0 = some li ∧
      li.any (sendsChunkData 0 ((4 : Int), (4 : Int))) = true ∧
      ((4 : Int), (4 : Int)) ∈
        streamedSet (stateAt dupLoad dupSession dupEvents 1) 0 ∧
      (traceEffs dupLoad dupSession dupEvents).get? 1 = some lj ∧
      lj.any (sendsChunkData 0 ((4 : Int), (4 : Int))) = true ∧
      (∀ l, l ∈ traceEffs dupLoad dupSession dupEvents →
        l.any (sendsChunkUnload 0 ((4 : Int), (4 : Int))) = false) ∧
      SEvent.disconnect 0 ∉ dupEvents := by
  have hauth₁ : (handleConnect dupLoad dupSession 0 "ABC123" "Bob").1.auth_code =
      "ABC123" := handleConnect_auth dupLoad dupSession 0 "ABC123" "Bob"
  refine ⟨(handleConnect dupLoad dupSession 0 "ABC123" "Bob").2,
    (handleConnect dupLoad (handleConnect dupLoad dupSession 0 "ABC123" "Bob").1
      0 "ABC123" "Bob").2, rfl, ?_, ?_, rfl, ?_, ?_, ?_⟩
  · exact handleConnect_sends_chunk dupLoad dupSession 0 "ABC123" "Bob"
      ((4 : Int), (4 : Int)) rfl dup_spawn_chunk_mem
  · show ((4 : Int), (4 : Int)) ∈
      streamedSet (handleConnect dupLoad dupSession 0 "ABC123" "Bob").1 0
    unfold streamedSet
    rw [(handleConnect_state_ok dupLoad dupSession 0 "ABC123" "Bob" rfl).2,
      alookup_ainsert_self]
    exact dup_spawn_chunk_mem
  · exact handleConnect_sends_chunk dupLoad
      (handleConnect dupLoad dupSession 0 "ABC123" "Bob").1 0 "ABC123" "Bob"
      ((4 : Int), (4 : Int)) hauth₁.symm dup_spawn_chunk_mem
  · intro l hl
    have htr : traceEffs dupLoad dupSession dupEvents =
        [(handleConnect dupLoad dupSession 0 "ABC123" "Bob").2,
         (handleConnect dupLoad (handleConnect dupLoad dupSession 0 "ABC123" "Bob").1
           0 "ABC123" "Bob").2] := rfl
    rw [htr] at hl
    rcases List.mem_cons.mp hl with heq | hl
    · rw [heq]
      exact handleConnect_no_unload dupLoad dupSession 0 "ABC123" "Bob" 0
        ((4 : Int), (4 : Int))
    · rw [List.mem_singleton.mp hl]
      exact handleConnect_no_unload dupLoad
        (handleConnect dupLoad dupSession 0 "ABC123" "Bob").1 0 "ABC123" "Bob" 0
        ((4 : Int), (4 : Int))
  · intro hmem
    rcases List.mem_cons.mp hmem with h | hmem
    · exact SEvent.noConfusion h
    · rcases List.mem_singleton.mp hmem with h
      exact SEvent.noConfusion h

/-- Witness for the corrected no-duplicate theorem: a concrete session and
admissible two-event trace (one fresh connect, then a streaming tick) at
which all hypotheses hold. -/
theorem chunk_stream_no_duplicate_witness :
    GoodState (WorldSession.new "ABC123") ∧
    OkEvents dupLoad (WorldSession.new "ABC123")
      [SEvent.connect 0 "ABC123" "Alice", SEvent.stream] ∧
    ((∀ k lk, (traceEffs dupLoad (WorldSession.new "ABC123")
        [SEvent.connect 0 "ABC123" "Alice", SEvent.stream]).get? k = some lk →
      lk.countP (sendsChunkData 0 ((4 : Int), (4 : Int))) ≤ 1) ∧
    (∀ i j li lj, i < j →
      (traceEffs dupLoad (WorldSession.new "ABC123")
        [SEvent.connect 0 "ABC123" "Alice", SEvent.stream]).get? i = some li →
      li.any (sendsChunkData 0 ((4 : Int), (4 : Int))) = true →
      (traceEffs dupLoad (WorldSession.new "ABC123")
        [SEvent.connect 0 "ABC123" "Alice", SEvent.stream]).get? j = some lj →
      lj.any (sendsChunkData 0 ((4 : Int), (4 : Int))) = true →
      ∃ k, i < k ∧ k < j ∧
        ((∃ lk, (traceEffs dupLoad (WorldSession.new "ABC123")
            [SEvent.connect 0 "ABC123" "Alice", SEvent.stream]).get? k = some lk ∧
            lk.any (sendsChunkUnload 0 ((4 : Int), (4 : Int))) = true) ∨
          [SEvent.connect 0 "ABC123" "Alice", SEvent.stream].get? k =
            some (SEvent.disconnect 0)))) :=
  ⟨⟨List.nodup_nil, List.nodup_nil, fun _ h => Bool.noConfusion h⟩,
   ⟨fun _ _ _ _ => rfl, ⟨fun _ _ _ h => SEvent.noConfusion h, trivial⟩⟩,
   chunk_stream_no_duplicate dupLoad (WorldSession.new "ABC123")
     [SEvent.connect 0 "ABC123" "Alice", SEvent.stream] 0 ((4 : Int), (4 : Int))
     ⟨List.nodup_nil, List.nodup_nil, fun _ h => Bool.noConfusion h⟩
     ⟨fun _ _ _ _ => rfl, ⟨fun _ _ _ h => SEvent.noConfusion h, trivial⟩⟩⟩

end Rustcraft
